import Mathlib

/-!
Verification development for the training-tracker compliance engine
(`training_tracker/processing/completion_calc.py` and
`training_tracker/processing/validation.py`).

Tables are modelled as lists of records; pandas column operations become
record-field computations, joins become explicit key-indexed lookups, and
nullable cells become `Option` values.  Numeric "days remaining" cells are
modelled as integers and completion percentages as exact rationals.
-/

/-! ## Text normalizer (`_normalize_text`)

Python: `str(s).strip().upper()`, Unicode-NFD decomposition dropping
combining marks (category Mn), `re.sub(r"[^A-Z0-9 ,]", " ", s)`,
`re.sub(r"\s+", " ", s).strip()`.  Characters are Lean `Char`s; the
Unicode case-mapping and decomposition tables are modelled on their
ASCII / Latin-1 slice (identity elsewhere), which is the slice the
repository's Spanish-language data exercises. -/

/-- Whitespace stripped by Python's argumentless `str.strip` (ASCII slice). -/
def isPySpace (c : Char) : Bool :=
  c = ' ' || c = '\t' || c = '\n' || c = '\r' || c = '\x0b' || c = '\x0c'

/-- Python `str.strip()`: drop leading and trailing whitespace. -/
def pyStrip (l : List Char) : List Char :=
  ((l.dropWhile isPySpace).reverse.dropWhile isPySpace).reverse

/-- Python `str.upper()` on the ASCII and Latin-1 letter ranges (identity
elsewhere). -/
def pyUpper (c : Char) : Char :=
  if 'a' ≤ c ∧ c ≤ 'z' then Char.ofNat (c.toNat - 32)
  else if 0xE0 ≤ c.toNat ∧ c.toNat ≤ 0xFE ∧ c.toNat ≠ 0xF7 then Char.ofNat (c.toNat - 32)
  else c

/-- Latin slice of the canonical (NFD) decomposition table used by
`unicodedata.normalize("NFD", _)`: each precomposed Latin-1 letter maps to
its base letter followed by a combining mark. -/
def nfdTable (c : Char) : Option (Char × Char) :=
  if c = 'Á' then some ('A', '́')
  else if c = 'É' then some ('E', '́')
  else if c = 'Í' then some ('I', '́')
  else if c = 'Ó' then some ('O', '́')
  else if c = 'Ú' then some ('U', '́')
  else if c = 'Ü' then some ('U', '̈')
  else if c = 'Ñ' then some ('N', '̃')
  else if c = 'á' then some ('a', '́')
  else if c = 'é' then some ('e', '́')
  else if c = 'í' then some ('i', '́')
  else if c = 'ó' then some ('o', '́')
  else if c = 'ú' then some ('u', '́')
  else if c = 'ü' then some ('u', '̈')
  else if c = 'ñ' then some ('n', '̃')
  else none

/-- Canonical decomposition of one character. -/
def nfdChar (c : Char) : List Char :=
  match nfdTable c with
  | some (b, m) => [b, m]
  | none => [c]

/-- Unicode category Mn (nonspacing combining marks, Latin block). -/
def isMn (c : Char) : Bool :=
  0x300 ≤ c.toNat && c.toNat ≤ 0x36F

/-- Character class kept by `re.sub(r"[^A-Z0-9 ,]", " ", s)`. -/
def isKeep (c : Char) : Bool :=
  ('A' ≤ c && c ≤ 'Z') || ('0' ≤ c && c ≤ '9') || c = ' ' || c = ','

/-- One step of `re.sub(r"[^A-Z0-9 ,]", " ", s)`. -/
def keepChar (c : Char) : Char :=
  if isKeep c then c else ' '

/-- Whitespace class of the regex `\s` (ASCII slice). -/
def isReSpace (c : Char) : Bool :=
  c = ' ' || c = '\t' || c = '\n' || c = '\r' || c = '\x0b' || c = '\x0c'

/-- `re.sub(r"\s+", " ", s)`: replace each maximal whitespace run by one
space.  The flag records whether the previous character was whitespace. -/
def collapseWsAux : Bool → List Char → List Char
  | _, [] => []
  | afterSpace, c :: rest =>
    if isReSpace c then
      if afterSpace then collapseWsAux true rest
      else ' ' :: collapseWsAux true rest
    else c :: collapseWsAux false rest

def collapseWs (l : List Char) : List Char := collapseWsAux false l

/-- `_normalize_text` on the character list of an input string. -/
def normalizeChars (l : List Char) : List Char :=
  let s1 := (pyStrip l).map pyUpper
  let s2 := (s1.flatMap nfdChar).filter (fun c => ¬ isMn c)
  let s3 := s2.map keepChar
  pyStrip (collapseWs s3)

/-- `_normalize_text` on a (non-null) string input. -/
def normalizeText (s : String) : String := ⟨normalizeChars s.data⟩

/-- `_normalize_text` on a nullable scalar: `None` becomes `""`. -/
def normalizeScalar : Option String → String
  | none => ""
  | some s => normalizeText s

example : normalizeText "  José   Ñandú, pérez-lópez " = "JOSE NANDU, PEREZ LOPEZ" := by decide
example : normalizeText "SANTANA MENDOZA JORGE" = "SANTANA MENDOZA JORGE" := by decide

/-! ## Identity resolver (`_user_key_from_user_name`,
`_candidate_user_keys_from_full_name`, `__employee_key`, `key_to_emp`,
`resolve_emp_key`) -/

/-- Python `str.strip()` on a string. -/
def pyStripStr (s : String) : String := ⟨pyStrip s.data⟩

/-- Python `" ".join(tokens)`. -/
def joinSpace : List String → String
  | [] => ""
  | [t] => t
  | t :: ts => t ++ " " ++ joinSpace ts

/-- Python `str.split()` (no argument): maximal runs of non-whitespace
characters.  The accumulator holds the current word, reversed. -/
def wordsAux : List Char → List Char → List (List Char)
  | acc, [] => if acc = [] then [] else [acc.reverse]
  | acc, c :: rest =>
    if isPySpace c then
      if acc = [] then wordsAux [] rest else acc.reverse :: wordsAux [] rest
    else wordsAux (c :: acc) rest

def pySplitWs (s : String) : List String :=
  (wordsAux [] s.data).map (fun w => (⟨w⟩ : String))

/-- Tokens of `_candidate_user_keys_from_full_name`:
`s.replace(",", " ").split()` applied to the normalized name. -/
def nameTokens (s : String) : List String :=
  pySplitWs ⟨s.data.map (fun c => if c = ',' then ' ' else c)⟩

/-- `_candidate_user_keys_from_full_name` (with the default
`max_given_tokens = 3`): candidate keys "GIVEN, SURNAMES" generated from a
roster full name "SURNAMES GIVEN". -/
def candidateUserKeys (full_name : String) : List String :=
  let s := normalizeText full_name
  let tokens := nameTokens s
  if tokens.length < 2 then []
  else
    let maxL := min 3 (tokens.length - 1)
    (List.range maxL).filterMap (fun i =>
      let l := i + 1
      let surn := pyStripStr (joinSpace (tokens.take (tokens.length - l)))
      let given := pyStripStr (joinSpace (tokens.drop (tokens.length - l)))
      if surn ≠ "" ∧ given ≠ "" then some (given ++ ", " ++ surn) else none)

/-- `_user_key_from_user_name`: normalize, and if a comma is present split
at the first comma and re-join the stripped halves as "GIVEN, SURNAME". -/
def userKeyFromUserName (user_name : String) : String :=
  let s := normalizeText user_name
  if s.data.contains ',' then
    let given := pyStripStr ⟨s.data.takeWhile (fun c => c ≠ ',')⟩
    let surn := pyStripStr ⟨(s.data.dropWhile (fun c => c ≠ ',')).drop 1⟩
    given ++ ", " ++ surn
  else s

example : candidateUserKeys "SANTANA MENDOZA JORGE" =
    ["JORGE, SANTANA MENDOZA", "MENDOZA JORGE, SANTANA"] := by decide
example : userKeyFromUserName " jorge ,  santana mendoza" = "JORGE, SANTANA MENDOZA" := by decide

/-! ## Input tables -/

/-- One `hr_df` row (roster): canonical loader columns. -/
structure HrRow where
  full_name : String
  job_title : String
  org_code : String
  org_desc : String
  head_of_department : String
deriving DecidableEq, Repr

/-- One `roles_df` row (requirements). -/
structure RoleRow where
  org_code : String
  org_desc : String
  job_title : String
  curriculum_id : String
  curriculum_title : String
  is_mandatory : Bool
deriving DecidableEq, Repr

/-- One `status_df` row (training status).  `days_remaining` is the
numeric nullable column produced by `pd.to_numeric(..., errors="coerce")`,
modelled as an optional integer. -/
structure StatusRow where
  user_name : String
  org_desc : String
  curriculum_id : String
  curriculum_title : String
  curriculum_complete : String
  days_remaining : Option Int
deriving DecidableEq, Repr

/-- The `.astype(str).str.strip()` preparation of the roster columns. -/
def prepHr (h : HrRow) : HrRow :=
  { full_name := pyStripStr h.full_name
    job_title := pyStripStr h.job_title
    org_code := pyStripStr h.org_code
    org_desc := pyStripStr h.org_desc
    head_of_department := pyStripStr h.head_of_department }

/-- The `.astype(str).str.strip()` preparation of the roles columns. -/
def prepRole (r : RoleRow) : RoleRow :=
  { r with
    org_code := pyStripStr r.org_code
    org_desc := pyStripStr r.org_desc
    job_title := pyStripStr r.job_title
    curriculum_id := pyStripStr r.curriculum_id
    curriculum_title := pyStripStr r.curriculum_title }

/-- The `.astype(str).str.strip()` preparation of the status columns
(`days_remaining` is not a text column and is left alone). -/
def prepStatus (r : StatusRow) : StatusRow :=
  { r with
    user_name := pyStripStr r.user_name
    org_desc := pyStripStr r.org_desc
    curriculum_id := pyStripStr r.curriculum_id
    curriculum_title := pyStripStr r.curriculum_title
    curriculum_complete := pyStripStr r.curriculum_complete }

/-- `__employee_key`: normalized `full_name|org_code|org_desc|job_title`. -/
def employeeKey (h : HrRow) : String :=
  normalizeText h.full_name ++ "|" ++ normalizeText h.org_code ++ "|"
    ++ normalizeText h.org_desc ++ "|" ++ normalizeText h.job_title

/-- The `key_to_emp` bucket for one `(candidate user key, normalized
org_desc)` pair: the set (deduplicated list) of employee keys of roster
rows contributing that candidate. -/
def bucketEmpKeys (hr : List HrRow) (k : String × String) : List String :=
  ((hr.filter (fun r =>
      normalizeText r.org_desc = k.2 && (candidateUserKeys r.full_name).contains k.1)).map
    employeeKey).dedup

/-- `resolve_emp_key`: resolve a status-record name to an employee key
exactly when its bucket holds a single key. -/
def resolveEmpKey (hr : List HrRow) (user_name org_desc : String) : Option String :=
  match bucketEmpKeys hr (userKeyFromUserName user_name, normalizeText org_desc) with
  | [e] => some e
  | _ => none

/-- `_is_yes`: truthy completion values after normalization. -/
def isYes (v : String) : Bool :=
  let s := normalizeText v
  s = "YES" || s = "Y" || s = "TRUE" || s = "1" || s = "SI" || s = "SÍ"

example : isYes " sí " = true := by decide
example : isYes "No" = false := by decide

/-! ## Completion deriver (`compute_employee_kpis`) -/

/-- Pandas `col >= 0` on a nullable numeric cell (`NaN >= 0` is false). -/
def optNonneg : Option Int → Bool
  | some d => 0 ≤ d
  | none => false

/-- One row of `status_df` after the in-function processing: resolution,
truthy completion, numeric days (cleared when completed), record-level
`curriculum_done`. -/
structure StatusProc where
  user_name : String
  org_desc : String
  curriculum_id : String
  curriculum_title : String
  emp_key : Option String
  curriculum_completed : Bool
  days_remaining : Option Int
  curriculum_done : Bool
deriving DecidableEq, Repr

/-- Lines 100-163 of `completion_calc.py`: strip the text columns, resolve
the employee key, normalize the completion flag, clear `days_remaining` on
completed records, and derive the record-level done flag. -/
def processStatus (hr : List HrRow) (st : List StatusRow) : List StatusProc :=
  st.map (fun r0 =>
    let r := prepStatus r0
    let completed := isYes r.curriculum_complete
    let days := if completed then none else r.days_remaining
    { user_name := r.user_name
      org_desc := r.org_desc
      curriculum_id := r.curriculum_id
      curriculum_title := r.curriculum_title
      emp_key := resolveEmpKey (hr.map prepHr) r.user_name r.org_desc
      curriculum_completed := completed
      days_remaining := days
      curriculum_done := completed || (!completed && days.isSome && optNonneg days) })

/-- `status_subset` rows: resolved records only, keyed columns. -/
structure ResolvedStatus where
  emp_key : String
  curriculum_id : String
  curriculum_completed : Bool
  days_remaining : Option Int
deriving DecidableEq, Repr

def resolvedStatus (hr : List HrRow) (st : List StatusRow) : List ResolvedStatus :=
  (processStatus hr st).filterMap (fun r =>
    match r.emp_key with
    | some e => some { emp_key := e, curriculum_id := r.curriculum_id,
                       curriculum_completed := r.curriculum_completed,
                       days_remaining := r.days_remaining }
    | none => none)

/-- Nullable-minimum used by the `groupby(...).agg(days_remaining=("days_remaining", "min"))`
deduplication: `NaN` cells are skipped. -/
def minOptInt : Option Int → Option Int → Option Int
  | none, b => b
  | some x, none => some x
  | some x, some y => some (min x y)

/-- The `status_subset` group for `(employee_key, curriculum_id)` after the
deduplicating `groupby`: `none` when no resolved record exists for the pair
(the later left merge then leaves the status columns null), otherwise
any-completed and the null-skipping minimum of `days_remaining`. -/
def statusAggFor (hr : List HrRow) (st : List StatusRow) (e c : String) :
    Option (Bool × Option Int) :=
  let g := (resolvedStatus hr st).filter (fun r => r.emp_key == e && r.curriculum_id == c)
  if g.isEmpty then none
  else some (g.any (·.curriculum_completed),
             g.foldl (fun acc r => minOptInt acc r.days_remaining) none)

/-- `required`: the left merge of the prepared roster with the prepared
roles on `(org_code, org_desc, job_title)`, rows without a matching role
(null `curriculum_id`) dropped. -/
def requiredRows (hr : List HrRow) (roles : List RoleRow) : List (HrRow × RoleRow) :=
  (hr.map prepHr).flatMap (fun h =>
    ((roles.map prepRole).filter (fun ro =>
        ro.org_code == h.org_code && ro.org_desc == h.org_desc && ro.job_title == h.job_title)).map
      (fun ro => (h, ro)))

/-- One `req_with_status` row (the requirement-status join, before the
column selection that forms `required_detail_df`). -/
structure ReqStatusRow where
  emp_key : String
  full_name : String
  job_title : String
  org_code : String
  org_desc : String
  head_of_department : String
  curriculum_id : String
  curriculum_title : String
  is_mandatory : Bool
  is_assigned : Bool
  curriculum_completed : Bool
  days_remaining : Option Int
  curriculum_done : Bool
deriving DecidableEq, Repr

/-- Lines 191-213: left-merge `required` with the deduplicated status
subset on `(employee_key, curriculum_id)`; `is_assigned` marks a non-null
merge, completion is filled to false, and `curriculum_done` applies the
days-remaining boundary policy.  One merged row per
`(roster row, role row)` pair. -/
def mkReqStatusRow (hr : List HrRow) (st : List StatusRow) (p : HrRow × RoleRow) :
    ReqStatusRow :=
  let h := p.1
  let ro := p.2
  let agg := statusAggFor hr st (employeeKey h) ro.curriculum_id
  let is_assigned := agg.isSome
  let completed := (agg.map Prod.fst).getD false
  let days := (agg.map Prod.snd).getD none
  { emp_key := employeeKey h
    full_name := h.full_name
    job_title := h.job_title
    org_code := h.org_code
    org_desc := h.org_desc
    head_of_department := h.head_of_department
    curriculum_id := ro.curriculum_id
    curriculum_title := ro.curriculum_title
    is_mandatory := ro.is_mandatory
    is_assigned := is_assigned
    curriculum_completed := completed
    days_remaining := days
    curriculum_done := completed || (is_assigned && !completed && days.isSome && optNonneg days) }

def reqWithStatus (hr : List HrRow) (roles : List RoleRow) (st : List StatusRow) :
    List ReqStatusRow :=
  (requiredRows hr roles).map (mkReqStatusRow hr st)

/-- One `required_detail_df` row (final column selection). -/
structure RequiredDetailRow where
  full_name : String
  job_title : String
  org_code : String
  org_desc : String
  head_of_department : String
  curriculum_id : String
  curriculum_title : String
  is_mandatory : Bool
  is_assigned : Bool
  curriculum_completed : Bool
  days_remaining : Option Int
  curriculum_done : Bool
deriving DecidableEq, Repr

def requiredDetail (hr : List HrRow) (roles : List RoleRow) (st : List StatusRow) :
    List RequiredDetailRow :=
  (reqWithStatus hr roles st).map (fun r =>
    { full_name := r.full_name
      job_title := r.job_title
      org_code := r.org_code
      org_desc := r.org_desc
      head_of_department := r.head_of_department
      curriculum_id := r.curriculum_id
      curriculum_title := r.curriculum_title
      is_mandatory := r.is_mandatory
      is_assigned := r.is_assigned
      curriculum_completed := r.curriculum_completed
      days_remaining := r.days_remaining
      curriculum_done := r.curriculum_done })

/-- One `agg_req` row (lines 215-243): per-employee rollup of
`req_with_status`, grouped by `__employee_key`. -/
structure AggRow where
  emp_key : String
  required_count : Nat
  completed_required_count : Nat
  done_required_count : Nat
  unassigned_mandatory_count : Nat
  missing_required_count : Int
  has_requirements : Bool
  completion_pct : Option ℚ
  full_compliance_flag : Bool
  full_done_flag : Bool
deriving DecidableEq, Repr

/-- The aggregate row for one `__employee_key` group. -/
def mkAggRow (rws : List ReqStatusRow) (e : String) : AggRow :=
  let g := rws.filter (fun r => r.emp_key == e)
  let required_count := (g.map (·.curriculum_id)).dedup.length
  let completed := g.countP (·.curriculum_completed)
  let done := g.countP (·.curriculum_done)
  let unassigned := g.countP (fun r => r.is_mandatory && !r.is_assigned)
  let missing : Int := (required_count : Int) - (completed : Int)
  let has_req := decide (0 < required_count)
  { emp_key := e
    required_count := required_count
    completed_required_count := completed
    done_required_count := done
    unassigned_mandatory_count := unassigned
    missing_required_count := missing
    has_requirements := has_req
    completion_pct :=
      if 0 < required_count then some ((100 : ℚ) * (completed : ℚ) / (required_count : ℚ))
      else none
    full_compliance_flag := has_req && missing == 0
    full_done_flag := has_req && done == required_count }

def aggReq (rws : List ReqStatusRow) : List AggRow :=
  ((rws.map (·.emp_key)).dedup).map (mkAggRow rws)

/-- Pandas `left.merge(right, on=key, how="left")`: every left row is kept;
rows with no right match get the right-side defaults (nulls/fills). -/
def leftMerge {α β γ : Type} (left : List α) (right : List β)
    (keyEq : α → β → Bool) (comb : α → β → γ) (dflt : α → γ) : List γ :=
  left.flatMap (fun a =>
    let ms := right.filter (keyEq a)
    if ms.isEmpty then [dflt a] else ms.map (comb a))

/-- One `employee_kpis_df` row (final column selection, line 349). -/
structure EmployeeKpiRow where
  full_name : String
  job_title : String
  org_code : String
  org_desc : String
  head_of_department : String
  required_count : Nat
  completed_required_count : Nat
  done_required_count : Nat
  missing_required_count : Int
  unassigned_mandatory_count : Nat
  has_requirements : Bool
  completion_pct : Option ℚ
  full_compliance_flag : Bool
  full_done_flag : Bool
  extra_completed_count : Nat
deriving DecidableEq, Repr

/-- The merged KPI columns for a roster row with a matching `agg_req` row
(line 257, with the fills and recomputations of lines 259-264). -/
def kpiFromAgg (h : HrRow) (a : AggRow) : EmployeeKpiRow :=
  { full_name := h.full_name
    job_title := h.job_title
    org_code := h.org_code
    org_desc := h.org_desc
    head_of_department := h.head_of_department
    required_count := a.required_count
    completed_required_count := a.completed_required_count
    done_required_count := a.done_required_count
    missing_required_count := a.missing_required_count
    unassigned_mandatory_count := a.unassigned_mandatory_count
    has_requirements := decide (0 < a.required_count)
    completion_pct := a.completion_pct
    full_compliance_flag := a.full_compliance_flag
    full_done_flag := a.full_done_flag
    extra_completed_count := 0 }

/-- The merged KPI columns for a roster row with no `agg_req` row: nulls
filled to 0 / false, `completion_pct` left null. -/
def kpiNoAgg (h : HrRow) : EmployeeKpiRow :=
  { full_name := h.full_name
    job_title := h.job_title
    org_code := h.org_code
    org_desc := h.org_desc
    head_of_department := h.head_of_department
    required_count := 0
    completed_required_count := 0
    done_required_count := 0
    missing_required_count := 0
    unassigned_mandatory_count := 0
    has_requirements := false
    completion_pct := none
    full_compliance_flag := false
    full_done_flag := false
    extra_completed_count := 0 }

/-- Lines 245-264: left-merge the roster base columns with `agg_req` on
`__employee_key`, filling counts with 0 and flags with false, recomputing
`has_requirements`, and initializing `extra_completed_count`. -/
def employeeKpisStage (hr : List HrRow) (roles : List RoleRow) (st : List StatusRow) :
    List EmployeeKpiRow :=
  leftMerge (hr.map prepHr) (aggReq (reqWithStatus hr roles st))
    (fun h a => employeeKey h == a.emp_key) kpiFromAgg kpiNoAgg

/-! ## Extra completions (lines 164, 285-346) -/

/-- `status_completed` restricted to resolved records (lines 164, 288). -/
def statusCompletedResolved (hr : List HrRow) (st : List StatusRow) : List StatusProc :=
  (processStatus hr st).filter (fun r => r.curriculum_completed && r.emp_key.isSome)

/-- `required_keys`: the `(employee_key, curriculum_id)` pairs present in
`required` (mandatory and optional alike). -/
def requiredKeys (hr : List HrRow) (roles : List RoleRow) : List (String × String) :=
  (requiredRows hr roles).map (fun p => (employeeKey p.1, p.2.curriculum_id))

/-- `_is_extra`: completed record whose pair is absent from `required`. -/
def isExtra (hr : List HrRow) (roles : List RoleRow) (r : StatusProc) : Bool :=
  !(requiredKeys hr roles).contains (r.emp_key.getD "", r.curriculum_id)

/-- One `extra_detail_df` row.  `org_desc` is the status record's column
(the roster's collides and is suffixed `_hr`, then dropped); the other
identity columns come from the roster merge on `__employee_key`. -/
structure ExtraRow where
  full_name : String
  job_title : String
  org_code : String
  org_desc : String
  head_of_department : String
  curriculum_id : String
  curriculum_title : String
  is_mandatory : Bool
  curriculum_completed : Bool
  days_remaining : Option Int
  curriculum_done : Bool
deriving DecidableEq, Repr

def extraDetail (hr : List HrRow) (roles : List RoleRow) (st : List StatusRow) :
    List ExtraRow :=
  let ex0 := (statusCompletedResolved hr st).filter (isExtra hr roles)
  leftMerge ex0 (hr.map prepHr)
    (fun r h => some (employeeKey h) == r.emp_key)
    (fun r h =>
      { full_name := h.full_name
        job_title := h.job_title
        org_code := h.org_code
        org_desc := r.org_desc
        head_of_department := h.head_of_department
        curriculum_id := r.curriculum_id
        curriculum_title := r.curriculum_title
        is_mandatory := false
        curriculum_completed := r.curriculum_completed
        days_remaining := r.days_remaining
        curriculum_done := r.curriculum_done })
    (fun r =>
      { full_name := ""
        job_title := ""
        org_code := ""
        org_desc := r.org_desc
        head_of_department := ""
        curriculum_id := r.curriculum_id
        curriculum_title := r.curriculum_title
        is_mandatory := false
        curriculum_completed := r.curriculum_completed
        days_remaining := r.days_remaining
        curriculum_done := r.curriculum_done })

/-- The `extra_completed_count` groupby (lines 335-340): distinct completed
extra curricula per `(full_name, org_code, org_desc, job_title)`. -/
def exCounts (ed : List ExtraRow) : List ((String × String × String × String) × Nat) :=
  ((ed.map (fun x => (x.full_name, x.org_code, x.org_desc, x.job_title))).dedup).map (fun k =>
    (k, ((ed.filter (fun x => (x.full_name, x.org_code, x.org_desc, x.job_title) == k)).map
          (·.curriculum_id)).dedup.length))

/-- `compute_employee_kpis` employee output: the KPI stage plus the
extra-completions merge (lines 331-346). -/
def employeeKpis (hr : List HrRow) (roles : List RoleRow) (st : List StatusRow) :
    List EmployeeKpiRow :=
  let stage := employeeKpisStage hr roles st
  let ed := extraDetail hr roles st
  if ed.isEmpty then stage
  else
    leftMerge stage (exCounts ed)
      (fun k x => (k.full_name, k.org_code, k.org_desc, k.job_title) == x.1)
      (fun k x => { k with extra_completed_count := x.2 })
      (fun k => { k with extra_completed_count := 0 })

/-- Row-level view of the KPI stage: the `agg_req` left merge as a lookup
on `__employee_key` (the `agg_req` keys are unique, so a roster row meets
at most one aggregate row). -/
def stageRowOf (hr : List HrRow) (roles : List RoleRow) (st : List StatusRow)
    (h : HrRow) : EmployeeKpiRow :=
  ((((aggReq (reqWithStatus hr roles st)).filter
      (fun a => employeeKey h == a.emp_key)).head?).map (kpiFromAgg h)).getD (kpiNoAgg h)

/-- Row-level view of `employee_kpis_df`: the extra-completions merge as a
lookup on the identity quadruple (the `exCounts` keys are unique). -/
def kpiRowOf (hr : List HrRow) (roles : List RoleRow) (st : List StatusRow)
    (h : HrRow) : EmployeeKpiRow :=
  if (extraDetail hr roles st).isEmpty then stageRowOf hr roles st h
  else
    ((((exCounts (extraDetail hr roles st)).filter (fun x =>
        ((stageRowOf hr roles st h).full_name, (stageRowOf hr roles st h).org_code,
         (stageRowOf hr roles st h).org_desc, (stageRowOf hr roles st h).job_title) == x.1)).head?).map
      (fun x => { stageRowOf hr roles st h with extra_completed_count := x.2 })).getD
      { stageRowOf hr roles st h with extra_completed_count := 0 }

/-! ## Aggregator (`_add_completion_segment`, `compute_department_kpis`) -/

/-- `_add_completion_segment`'s bucket function: null percentage maps to no
bucket, otherwise lower-bound-inclusive thresholds at 90 and 70. -/
def segmentOf : Option ℚ → Option String
  | none => none
  | some x => if 90 ≤ x then some ">=90%" else if 70 ≤ x then some "70–89%" else some "<70%"

/-- One `compute_department_kpis` output row.  The three segment-count
cells are nullable: the `seg_counts` table only has rows for groups with at
least one bucketed employee, so a group with none gets nulls (not zeros)
from the left merge. -/
structure DeptKpiRow where
  org_code : String
  org_desc : String
  employees_count : Nat
  employees_with_requirements : Nat
  employees_full_compliance : Nat
  avg_completion_pct : Option ℚ
  seg_70_89 : Option Nat
  seg_lt_70 : Option Nat
  seg_ge_90 : Option Nat
  dept_full_compliance_rate : Option ℚ
deriving DecidableEq, Repr

def computeDepartmentKpis (emps : List EmployeeKpiRow) : List DeptKpiRow :=
  let keys := (emps.map (fun e => (e.org_code, e.org_desc))).dedup
  keys.map (fun k =>
    let g := emps.filter (fun e => (e.org_code, e.org_desc) == k)
    let withPct := g.filterMap (·.completion_pct)
    let withReq := g.countP (·.has_requirements)
    let fullComp := g.countP (·.full_compliance_flag)
    let hasSeg := g.any (fun e => (segmentOf e.completion_pct).isSome)
    { org_code := k.1
      org_desc := k.2
      employees_count := g.length
      employees_with_requirements := withReq
      employees_full_compliance := fullComp
      avg_completion_pct :=
        if withPct.isEmpty then none else some (withPct.sum / (withPct.length : ℚ))
      seg_70_89 :=
        if hasSeg then some (g.countP (fun e => segmentOf e.completion_pct == some "70–89%"))
        else none
      seg_lt_70 :=
        if hasSeg then some (g.countP (fun e => segmentOf e.completion_pct == some "<70%"))
        else none
      seg_ge_90 :=
        if hasSeg then some (g.countP (fun e => segmentOf e.completion_pct == some ">=90%"))
        else none
      dept_full_compliance_rate :=
        if 0 < withReq then some ((fullComp : ℚ) / (withReq : ℚ)) else none })

/-! ## Validation (`validate_data`) -/

inductive IssueDetails where
  | missingColumns (missing : List String)
  | duplicateKeys (duplicate_keys_sample : List String) (count : Nat)
  | noRequirements (sample : List (String × String × String))
  | orgDescNotInHr (sample : List (String × String))
deriving DecidableEq, Repr

structure Issue where
  level : String
  code : String
  details : IssueDetails
deriving DecidableEq, Repr

/-- `hr_keys[hr_keys.duplicated()]`: the keys at positions whose key has
already occurred earlier in the column. -/
def dupMarked (seen : List String) : List String → List String
  | [] => []
  | k :: rest => (if seen.contains k then [k] else []) ++ dupMarked (k :: seen) rest

/-- `hr_keys[hr_keys.duplicated()].unique().tolist()`. -/
def dupKeys (hr : List HrRow) : List String :=
  (dupMarked [] (hr.map employeeKey)).dedup

/-- `validate_data` on typed tables (every required column present, so the
missing-column ERROR branches cannot fire): the duplicate-key ERROR and the
two referential-gap WARNINGs, in emission order. -/
def validateData (hr : List HrRow) (roles : List RoleRow) (st : List StatusRow) :
    List Issue :=
  let dup := dupKeys hr
  let dupIssues : List Issue :=
    if dup.isEmpty then []
    else [{ level := "ERROR", code := "HR_DUPLICATE_EMPLOYEE_KEY",
            details := .duplicateKeys (dup.take 10) dup.length }]
  let hrTriples := (hr.map (fun h => (h.org_code, h.org_desc, h.job_title))).dedup
  let roleTriples := (roles.map (fun r => (r.org_code, r.org_desc, r.job_title))).dedup
  let noReq := hrTriples.filter (fun t => !(roleTriples.contains t))
  let noReqIssues : List Issue :=
    if noReq.isEmpty then []
    else [{ level := "WARNING", code := "HR_EMPLOYEE_WITHOUT_ROLE_REQUIREMENTS",
            details := .noRequirements (noReq.take 10) }]
  let hrOrgDescs := (hr.map (fun h => normalizeText h.org_desc)).dedup
  let badOrg := st.filter (fun r => !(hrOrgDescs.contains (normalizeText r.org_desc)))
  let badOrgIssues : List Issue :=
    if badOrg.isEmpty then []
    else [{ level := "WARNING", code := "STATUS_ORG_DESC_NOT_IN_HR",
            details := .orgDescNotInHr ((badOrg.take 10).map (fun r => (r.user_name, r.org_desc))) }]
  dupIssues ++ noReqIssues ++ badOrgIssues

/-! ## Spec-side reference counts

Modelled from the spec: `mandatory_count` ("count of distinct mandatory
required curricula") and `mandatory_completed_count` ("count of completed
mandatory curricula") as the spec's completion-percentage claim words them,
for comparison with the code's `required_count`-based percentage. -/

def mandatoryCount (rws : List ReqStatusRow) (e : String) : Nat :=
  ((rws.filter (fun r => r.emp_key == e && r.is_mandatory)).map (·.curriculum_id)).dedup.length

def mandatoryCompletedCount (rws : List ReqStatusRow) (e : String) : Nat :=
  ((rws.filter (fun r => r.emp_key == e && r.is_mandatory && r.curriculum_completed)).map
    (·.curriculum_id)).dedup.length

/-! ## Structural lemmas about the merges -/

theorem filterMap_eq_map_of_forall {α β : Type} (l : List α) (f : α → Option β) (g : α → β)
    (h : ∀ a ∈ l, f a = some (g a)) : l.filterMap f = l.map g := by
  induction l with
  | nil => rfl
  | cons a t ih =>
    rw [List.filterMap_cons, h a (List.mem_cons_self a t), List.map_cons,
      ih (fun x hx => h x (List.mem_cons_of_mem a hx))]

theorem length_filter_le_one {β κ : Type} [BEq κ] [LawfulBEq κ] (key : β → κ) (l : List β)
    (hnd : (l.map key).Nodup) (k : κ) :
    (l.filter (fun b => k == key b)).length ≤ 1 := by
  induction l with
  | nil => simp
  | cons b t ih =>
    rw [List.map_cons, List.nodup_cons] at hnd
    rw [List.filter_cons]
    by_cases hk : k == key b
    · simp only [hk, if_pos]
      have : t.filter (fun x => k == key x) = [] := by
        refine List.filter_eq_nil_iff.mpr (fun x hx => ?_)
        intro hxk
        exact hnd.1 (by
          have : key x = key b := by
            have h1 : k = key b := by simpa using hk
            have h2 : k = key x := by simpa using hxk
            rw [← h1, h2]
          rw [← this]
          exact List.mem_map_of_mem _ hx)
      simp [this]
    · simp only [hk]
      simpa using ih hnd.2

theorem leftMerge_eq_map {α β γ : Type} (left : List α) (right : List β)
    (keyEq : α → β → Bool) (comb : α → β → γ) (dflt : α → γ)
    (h : ∀ a ∈ left, (right.filter (keyEq a)).length ≤ 1) :
    leftMerge left right keyEq comb dflt =
      left.map (fun a =>
        (((right.filter (keyEq a)).head?).map (comb a)).getD (dflt a)) := by
  induction left with
  | nil => rfl
  | cons a t ih =>
    rw [leftMerge, List.flatMap_cons, List.map_cons]
    have hrest : leftMerge t right keyEq comb dflt = _ :=
      ih (fun x hx => h x (List.mem_cons_of_mem a hx))
    rw [leftMerge] at hrest
    rw [hrest]
    have ha := h a (List.mem_cons_self a t)
    match hm : right.filter (keyEq a) with
    | [] => simp [hm]
    | [b] => simp [hm]
    | b :: c :: u => rw [hm] at ha; simp at ha

theorem aggReq_keys (rws : List ReqStatusRow) :
    (aggReq rws).map (·.emp_key) = (rws.map (·.emp_key)).dedup := by
  unfold aggReq
  rw [List.map_map]
  exact (List.map_congr_left (fun e _ => rfl)).trans (List.map_id _)

theorem exCounts_keys (ed : List ExtraRow) :
    (exCounts ed).map Prod.fst =
      (ed.map (fun x => (x.full_name, x.org_code, x.org_desc, x.job_title))).dedup := by
  unfold exCounts
  rw [List.map_map]
  exact (List.map_congr_left (fun e _ => rfl)).trans (List.map_id _)

theorem employeeKpisStage_eq_map (hr : List HrRow) (roles : List RoleRow) (st : List StatusRow) :
    employeeKpisStage hr roles st = (hr.map prepHr).map (stageRowOf hr roles st) := by
  unfold employeeKpisStage
  rw [leftMerge_eq_map]
  · exact List.map_congr_left (fun h _ => by rw [stageRowOf])
  · intro a _
    exact length_filter_le_one AggRow.emp_key _ (by rw [aggReq_keys]; exact List.nodup_dedup _) _

theorem employeeKpis_eq_map (hr : List HrRow) (roles : List RoleRow) (st : List StatusRow) :
    employeeKpis hr roles st = (hr.map prepHr).map (kpiRowOf hr roles st) := by
  unfold employeeKpis
  cases hed : (extraDetail hr roles st).isEmpty with
  | true =>
    rw [if_pos hed, employeeKpisStage_eq_map]
    refine List.map_congr_left (fun h _ => ?_)
    rw [kpiRowOf, if_pos hed]
  | false =>
    have hed' : ¬ ((extraDetail hr roles st).isEmpty = true) := by
      rw [hed]; exact Bool.false_ne_true
    rw [if_neg hed', employeeKpisStage_eq_map, leftMerge_eq_map]
    · rw [List.map_map]
      refine List.map_congr_left (fun h _ => ?_)
      simp only [Function.comp]
      rw [kpiRowOf, if_neg hed']
    · intro a _
      exact length_filter_le_one Prod.fst _ (by rw [exCounts_keys]; exact List.nodup_dedup _) _

theorem stageRowOf_identity (hr : List HrRow) (roles : List RoleRow) (st : List StatusRow)
    (h : HrRow) :
    (stageRowOf hr roles st h).full_name = h.full_name ∧
    (stageRowOf hr roles st h).job_title = h.job_title ∧
    (stageRowOf hr roles st h).org_code = h.org_code ∧
    (stageRowOf hr roles st h).org_desc = h.org_desc ∧
    (stageRowOf hr roles st h).head_of_department = h.head_of_department := by
  rw [stageRowOf]
  cases hst : ((aggReq (reqWithStatus hr roles st)).filter
      (fun a => employeeKey h == a.emp_key)).head? with
  | none => exact ⟨rfl, rfl, rfl, rfl, rfl⟩
  | some a => exact ⟨rfl, rfl, rfl, rfl, rfl⟩

theorem kpiRowOf_identity (hr : List HrRow) (roles : List RoleRow) (st : List StatusRow)
    (h : HrRow) :
    (kpiRowOf hr roles st h).full_name = h.full_name ∧
    (kpiRowOf hr roles st h).job_title = h.job_title ∧
    (kpiRowOf hr roles st h).org_code = h.org_code ∧
    (kpiRowOf hr roles st h).org_desc = h.org_desc ∧
    (kpiRowOf hr roles st h).head_of_department = h.head_of_department := by
  have hstage := stageRowOf_identity hr roles st h
  rw [kpiRowOf]
  split
  · exact hstage
  · cases hx : ((exCounts (extraDetail hr roles st)).filter (fun x =>
        ((stageRowOf hr roles st h).full_name, (stageRowOf hr roles st h).org_code,
         (stageRowOf hr roles st h).org_desc, (stageRowOf hr roles st h).job_title) == x.1)).head? with
    | none => simpa using hstage
    | some x => simpa using hstage

theorem filter_beq_self_of_nodup {κ : Type} [BEq κ] [LawfulBEq κ] (l : List κ)
    (hnd : l.Nodup) (k : κ) (hk : k ∈ l) : l.filter (fun e => k == e) = [k] := by
  induction l with
  | nil => cases hk
  | cons a t ih =>
    rw [List.nodup_cons] at hnd
    rcases List.mem_cons.mp hk with heq | hkt
    · rw [heq, List.filter_cons]
      simp only [BEq.refl, if_pos]
      have hnil : t.filter (fun e => a == e) = [] := by
        refine List.filter_eq_nil_iff.mpr (fun x hx hax => ?_)
        exact hnd.1 (by rw [beq_iff_eq.mp hax]; exact hx)
      rw [hnil]
    · rw [List.filter_cons]
      have hka : (k == a) = false := by
        refine beq_eq_false_iff_ne.mpr (fun heq2 => ?_)
        exact hnd.1 (heq2 ▸ hkt)
      simp only [hka, Bool.false_eq_true, if_false]
      exact ih hnd.2 hkt

theorem filter_beq_nil_of_not_mem {κ : Type} [BEq κ] [LawfulBEq κ] (l : List κ)
    (k : κ) (hk : k ∉ l) : l.filter (fun e => k == e) = [] :=
  List.filter_eq_nil_iff.mpr (fun x hx hkx => hk (beq_iff_eq.mp hkx ▸ hx))

/-- The KPI-stage lookup resolved: a roster row whose employee key occurs
in `req_with_status` gets that key's aggregate row, any other roster row
gets the null-filled defaults. -/
theorem stageRowOf_eq (hr : List HrRow) (roles : List RoleRow) (st : List StatusRow)
    (h : HrRow) :
    stageRowOf hr roles st h =
      if employeeKey h ∈ (reqWithStatus hr roles st).map (·.emp_key) then
        kpiFromAgg h (mkAggRow (reqWithStatus hr roles st) (employeeKey h))
      else kpiNoAgg h := by
  rw [stageRowOf, aggReq]
  have hfm : ∀ (l : List String) (p : String → Bool),
      (l.map (mkAggRow (reqWithStatus hr roles st))).filter
          (fun a => p a.emp_key) =
        (l.filter p).map (mkAggRow (reqWithStatus hr roles st)) := by
    intro l p
    induction l with
    | nil => rfl
    | cons a t ih =>
      rw [List.map_cons, List.filter_cons, List.filter_cons]
      have he : (mkAggRow (reqWithStatus hr roles st) a).emp_key = a := rfl
      by_cases hp : p a = true
      · simp [he, hp, ih]
      · simp [he, hp, ih]
  rw [hfm _ (fun e => employeeKey h == e)]
  by_cases hmem : employeeKey h ∈ (reqWithStatus hr roles st).map (·.emp_key)
  · rw [if_pos hmem,
      filter_beq_self_of_nodup _ (List.nodup_dedup _) _ (List.mem_dedup.mpr hmem)]
    rfl
  · rw [if_neg hmem,
      filter_beq_nil_of_not_mem _ _ (fun hc => hmem (List.mem_dedup.mp hc))]
    rfl

/-- The extra-completions merge changes only `extra_completed_count`. -/
theorem kpiRowOf_eq_stage (hr : List HrRow) (roles : List RoleRow) (st : List StatusRow)
    (h : HrRow) :
    ∃ n, kpiRowOf hr roles st h =
      { stageRowOf hr roles st h with extra_completed_count := n } := by
  rw [kpiRowOf]
  split
  · exact ⟨(stageRowOf hr roles st h).extra_completed_count, by
      cases hs : stageRowOf hr roles st h; rfl⟩
  · cases hx : ((exCounts (extraDetail hr roles st)).filter (fun x =>
        ((stageRowOf hr roles st h).full_name, (stageRowOf hr roles st h).org_code,
         (stageRowOf hr roles st h).org_desc, (stageRowOf hr roles st h).job_title) == x.1)).head? with
    | none => exact ⟨0, rfl⟩
    | some x => exact ⟨x.2, rfl⟩

/-- All aggregate-derived fields of an employee's KPI row, expressed over
that employee's `req_with_status` group (the defaults coincide with the
formulas when the group is empty). -/
theorem kpiRowOf_agg_fields (hr : List HrRow) (roles : List RoleRow) (st : List StatusRow)
    (h : HrRow) :
    (kpiRowOf hr roles st h).required_count =
      ((((reqWithStatus hr roles st).filter
          (fun r => r.emp_key == employeeKey h)).map (·.curriculum_id)).dedup.length) ∧
    (kpiRowOf hr roles st h).completed_required_count =
      ((reqWithStatus hr roles st).filter
          (fun r => r.emp_key == employeeKey h)).countP (·.curriculum_completed) ∧
    (kpiRowOf hr roles st h).done_required_count =
      ((reqWithStatus hr roles st).filter
          (fun r => r.emp_key == employeeKey h)).countP (·.curriculum_done) ∧
    (kpiRowOf hr roles st h).unassigned_mandatory_count =
      ((reqWithStatus hr roles st).filter
          (fun r => r.emp_key == employeeKey h)).countP (fun r => r.is_mandatory && !r.is_assigned) ∧
    (kpiRowOf hr roles st h).missing_required_count =
      (((((reqWithStatus hr roles st).filter
          (fun r => r.emp_key == employeeKey h)).map (·.curriculum_id)).dedup.length : Int)) -
        (((reqWithStatus hr roles st).filter
          (fun r => r.emp_key == employeeKey h)).countP (·.curriculum_completed) : Int) ∧
    (kpiRowOf hr roles st h).has_requirements =
      decide (0 < ((((reqWithStatus hr roles st).filter
          (fun r => r.emp_key == employeeKey h)).map (·.curriculum_id)).dedup.length)) ∧
    (kpiRowOf hr roles st h).completion_pct =
      (if 0 < ((((reqWithStatus hr roles st).filter
            (fun r => r.emp_key == employeeKey h)).map (·.curriculum_id)).dedup.length) then
        some ((100 : ℚ) *
          ((((reqWithStatus hr roles st).filter
            (fun r => r.emp_key == employeeKey h)).countP (·.curriculum_completed)) : ℚ) /
          (((((reqWithStatus hr roles st).filter
            (fun r => r.emp_key == employeeKey h)).map (·.curriculum_id)).dedup.length) : ℚ))
      else none) := by
  obtain ⟨n, hn⟩ := kpiRowOf_eq_stage hr roles st h
  rw [hn, stageRowOf_eq]
  by_cases hmem : employeeKey h ∈ (reqWithStatus hr roles st).map (·.emp_key)
  · rw [if_pos hmem]
    exact ⟨rfl, rfl, rfl, rfl, rfl, rfl, rfl⟩
  · rw [if_neg hmem]
    have hg : (reqWithStatus hr roles st).filter (fun r => r.emp_key == employeeKey h) = [] := by
      refine List.filter_eq_nil_iff.mpr (fun r hrr hbeq => hmem ?_)
      rw [← beq_iff_eq.mp hbeq]
      exact List.mem_map_of_mem _ hrr
    rw [hg]
    exact ⟨rfl, rfl, rfl, rfl, rfl, rfl, rfl⟩

/-! ## Concrete input tables used by evaluations -/

def hrDays : List HrRow := [⟨"AA BB", "J", "C", "D", "H"⟩]

def rolesDays : List RoleRow := [⟨"C", "D", "J", "M1", "TM", true⟩]

def stDays : List StatusRow :=
  [⟨"BB, AA", "D", "M1", "TM", "Yes", some 3⟩,
   ⟨"BB, AA", "D", "M1", "TM", "No", some 5⟩]

def hrPct : List HrRow := [⟨"AA BB", "J", "C", "D", "H"⟩]

def rolesPct : List RoleRow :=
  [⟨"C", "D", "J", "M1", "TM", true⟩, ⟨"C", "D", "J", "O1", "TO", false⟩]

def stPct : List StatusRow := [⟨"BB, AA", "D", "M1", "TM", "Yes", none⟩]

def hrClash : List HrRow :=
  [⟨"AA BB", "X", "C", "D", "H"⟩, ⟨"AA BB", "x", "C", "D", "H"⟩]

def rolesClash : List RoleRow := [⟨"C", "D", "x", "M1", "TM", true⟩]

def empNoReq : EmployeeKpiRow :=
  ⟨"AA BB", "J", "C", "D", "H", 0, 0, 0, 0, 0, false, none, false, false, 0⟩

/-! ## Claim theorems -/

/-- C10: the employee_kpis table has exactly one row per roster row, in
roster order, carrying that roster row's (stripped) identity columns; no
roster row is duplicated or dropped by the `agg_req` or extra-completions
merges. -/
theorem employee_kpis_one_row_per_roster_row (hr : List HrRow) (roles : List RoleRow)
    (st : List StatusRow) :
    (employeeKpis hr roles st).length = hr.length ∧
    (employeeKpis hr roles st).map (fun r =>
        (r.full_name, r.job_title, r.org_code, r.org_desc, r.head_of_department)) =
      hr.map (fun h => ((prepHr h).full_name, (prepHr h).job_title, (prepHr h).org_code,
        (prepHr h).org_desc, (prepHr h).head_of_department)) := by
  rw [employeeKpis_eq_map]
  refine ⟨by simp, ?_⟩
  rw [List.map_map, List.map_map]
  refine List.map_congr_left (fun h _ => ?_)
  obtain ⟨h1, h2, h3, h4, h5⟩ := kpiRowOf_identity hr roles st (prepHr h)
  simp [Function.comp, h1, h2, h3, h4, h5]

/-- C2 (failing input): for the pair (AA BB, M1) aggregated from a
completed record (days 3) and a pending record (days 5), the derived
requirement-status row is completed yet still carries days_remaining = 5 —
the record-level clearing rule is undone by the group minimum. -/
theorem completed_pair_keeps_days_remaining :
    (requiredDetail hrDays rolesDays stDays).map
        (fun r => (r.is_assigned, r.curriculum_completed, r.days_remaining, r.curriculum_done)) =
      [(true, true, some 5, true)] := by decide

/-- C1 (counterexample): with one completed mandatory curriculum and one
uncompleted optional curriculum, the code reports completion_pct = 50
(optional counted in numerator base and denominator), while the claim's
mandatory-only formula 100 × 1 / 1 gives 100. -/
theorem completion_pct_counts_optional_counterexample :
    (employeeKpis hrPct rolesPct stPct).map (·.completion_pct) = [some 50] ∧
    mandatoryCount (reqWithStatus hrPct rolesPct stPct)
      (employeeKey ⟨"AA BB", "J", "C", "D", "H"⟩) = 1 ∧
    mandatoryCompletedCount (reqWithStatus hrPct rolesPct stPct)
      (employeeKey ⟨"AA BB", "J", "C", "D", "H"⟩) = 1 ∧
    ¬ ((50 : ℚ) = 100 * (1 : ℚ) / (1 : ℚ)) := by
  refine ⟨?_, by decide, by decide, by norm_num⟩
  have h1 : employeeKpis hrPct rolesPct stPct =
      [kpiRowOf hrPct rolesPct stPct (prepHr ⟨"AA BB", "J", "C", "D", "H"⟩)] := by
    rw [employeeKpis_eq_map]; rfl
  rw [h1, List.map_cons, List.map_nil]
  obtain ⟨-, -, -, -, -, -, hpct⟩ :=
    kpiRowOf_agg_fields hrPct rolesPct stPct (prepHr ⟨"AA BB", "J", "C", "D", "H"⟩)
  rw [hpct]
  have hreq : ((((reqWithStatus hrPct rolesPct stPct).filter
      (fun r => r.emp_key == employeeKey (prepHr ⟨"AA BB", "J", "C", "D", "H"⟩))).map
        (·.curriculum_id)).dedup.length) = 2 := by decide
  have hcomp : ((reqWithStatus hrPct rolesPct stPct).filter
      (fun r => r.emp_key == employeeKey (prepHr ⟨"AA BB", "J", "C", "D", "H"⟩))).countP
        (·.curriculum_completed) = 1 := by decide
  rw [hreq, hcomp]
  norm_num

/-- C7 (counterexample): the roster row with job title "X" matches no
requirement row (the only role row has raw job title "x"), yet its KPI row
reports has_requirements = true — it inherits the aggregates of the other
roster row sharing its normalized canonical key. -/
theorem no_role_match_employee_not_zeroed_counterexample :
    ((rolesClash.map prepRole).filter (fun ro =>
        ro.org_code == (prepHr ⟨"AA BB", "X", "C", "D", "H"⟩).org_code &&
        ro.org_desc == (prepHr ⟨"AA BB", "X", "C", "D", "H"⟩).org_desc &&
        ro.job_title == (prepHr ⟨"AA BB", "X", "C", "D", "H"⟩).job_title)) = [] ∧
    (employeeKpis hrClash rolesClash []).map
        (fun r => (r.job_title, r.has_requirements, r.required_count)) =
      [("X", true, 1), ("x", true, 1)] := by decide

/-- C8 (counterexample): a department whose only employee has a null
completion_pct gets null segment-count cells (the group is absent from the
`seg_counts` table, so the left merge yields nulls, not zeros), so the
three bucket counts are not numbers summing to the non-null count. -/
theorem segment_cells_null_counterexample :
    (computeDepartmentKpis [empNoReq]).map
        (fun d => (d.seg_lt_70, d.seg_70_89, d.seg_ge_90)) = [(none, none, none)] ∧
    [empNoReq].countP (fun e => e.completion_pct.isSome) = 0 ∧
    ¬ ∃ a b c : Nat,
        (computeDepartmentKpis [empNoReq]).map
            (fun d => (d.seg_lt_70, d.seg_70_89, d.seg_ge_90)) =
          [(some a, some b, some c)] := by
  refine ⟨by decide, by decide, ?_⟩
  rintro ⟨a, b, c, heq⟩
  have hval : (computeDepartmentKpis [empNoReq]).map
      (fun d => (d.seg_lt_70, d.seg_70_89, d.seg_ge_90)) = [(none, none, none)] := by decide
  rw [hval] at heq
  simp at heq

/-- C1 (amended): every roster employee's KPI row computes completion_pct
over ALL required curricula: the numerator is the number of this
employee's requirement-status rows marked completed and the denominator
the number of distinct required curricula, optional curricula included in
both; the percentage is null exactly when the requirement group is empty. -/
theorem completion_pct_all_required_formula (hr : List HrRow) (roles : List RoleRow)
    (st : List StatusRow) (h : HrRow) (hmem : h ∈ hr) :
    kpiRowOf hr roles st (prepHr h) ∈ employeeKpis hr roles st ∧
    (kpiRowOf hr roles st (prepHr h)).completion_pct =
      (if 0 < ((((reqWithStatus hr roles st).filter
            (fun r => r.emp_key == employeeKey (prepHr h))).map (·.curriculum_id)).dedup.length) then
        some ((100 : ℚ) *
          ((((reqWithStatus hr roles st).filter
            (fun r => r.emp_key == employeeKey (prepHr h))).countP (·.curriculum_completed)) : ℚ) /
          (((((reqWithStatus hr roles st).filter
            (fun r => r.emp_key == employeeKey (prepHr h))).map (·.curriculum_id)).dedup.length) : ℚ))
      else none) := by
  refine ⟨?_, (kpiRowOf_agg_fields hr roles st (prepHr h)).2.2.2.2.2.2⟩
  rw [employeeKpis_eq_map]
  exact List.mem_map_of_mem _ (List.mem_map_of_mem _ hmem)

theorem completion_pct_all_required_formula_witness :
    kpiRowOf hrPct rolesPct stPct (prepHr ⟨"AA BB", "J", "C", "D", "H"⟩) ∈
        employeeKpis hrPct rolesPct stPct ∧
    (kpiRowOf hrPct rolesPct stPct (prepHr ⟨"AA BB", "J", "C", "D", "H"⟩)).completion_pct =
      (if 0 < ((((reqWithStatus hrPct rolesPct stPct).filter
            (fun r => r.emp_key == employeeKey (prepHr ⟨"AA BB", "J", "C", "D", "H"⟩))).map
              (·.curriculum_id)).dedup.length) then
        some ((100 : ℚ) *
          ((((reqWithStatus hrPct rolesPct stPct).filter
            (fun r => r.emp_key == employeeKey (prepHr ⟨"AA BB", "J", "C", "D", "H"⟩))).countP
              (·.curriculum_completed)) : ℚ) /
          (((((reqWithStatus hrPct rolesPct stPct).filter
            (fun r => r.emp_key == employeeKey (prepHr ⟨"AA BB", "J", "C", "D", "H"⟩))).map
              (·.curriculum_id)).dedup.length) : ℚ))
      else none) :=
  completion_pct_all_required_formula hrPct rolesPct stPct
    ⟨"AA BB", "J", "C", "D", "H"⟩ (by decide)

/-- C7 (amended): every roster employee appears in the employee output; an
employee for whose canonical employee key no requirement row was joined at
all is emitted with has_requirements = false, all requirement counts zero,
and null completion_pct. -/
theorem employee_no_joined_requirements_zeroed (hr : List HrRow) (roles : List RoleRow)
    (st : List StatusRow) (h : HrRow) (hmem : h ∈ hr)
    (hnone : (requiredRows hr roles).filter
        (fun p => employeeKey p.1 == employeeKey (prepHr h)) = []) :
    kpiRowOf hr roles st (prepHr h) ∈ employeeKpis hr roles st ∧
    (kpiRowOf hr roles st (prepHr h)).has_requirements = false ∧
    (kpiRowOf hr roles st (prepHr h)).required_count = 0 ∧
    (kpiRowOf hr roles st (prepHr h)).completed_required_count = 0 ∧
    (kpiRowOf hr roles st (prepHr h)).done_required_count = 0 ∧
    (kpiRowOf hr roles st (prepHr h)).missing_required_count = 0 ∧
    (kpiRowOf hr roles st (prepHr h)).unassigned_mandatory_count = 0 ∧
    (kpiRowOf hr roles st (prepHr h)).completion_pct = none := by
  have hg : (reqWithStatus hr roles st).filter
      (fun r => r.emp_key == employeeKey (prepHr h)) = [] := by
    refine List.filter_eq_nil_iff.mpr (fun r hrr hbeq => ?_)
    rw [reqWithStatus] at hrr
    obtain ⟨p, hp, rfl⟩ := List.mem_map.mp hrr
    exact absurd hbeq (by simpa using List.filter_eq_nil_iff.mp hnone p hp)
  obtain ⟨h1, h2, h3, h4, h5, h6, h7⟩ := kpiRowOf_agg_fields hr roles st (prepHr h)
  rw [hg] at h1 h2 h3 h4 h5 h6 h7
  refine ⟨?_, by simpa using h6, by simpa using h1, by simpa using h2,
    by simpa using h3, by simpa using h5, by simpa using h4, by simpa using h7⟩
  rw [employeeKpis_eq_map]
  exact List.mem_map_of_mem _ (List.mem_map_of_mem _ hmem)

theorem employee_no_joined_requirements_zeroed_witness :
    kpiRowOf hrPct ([] : List RoleRow) ([] : List StatusRow)
        (prepHr ⟨"AA BB", "J", "C", "D", "H"⟩) ∈
      employeeKpis hrPct [] [] ∧
    (kpiRowOf hrPct [] [] (prepHr ⟨"AA BB", "J", "C", "D", "H"⟩)).has_requirements = false ∧
    (kpiRowOf hrPct [] [] (prepHr ⟨"AA BB", "J", "C", "D", "H"⟩)).required_count = 0 ∧
    (kpiRowOf hrPct [] [] (prepHr ⟨"AA BB", "J", "C", "D", "H"⟩)).completed_required_count = 0 ∧
    (kpiRowOf hrPct [] [] (prepHr ⟨"AA BB", "J", "C", "D", "H"⟩)).done_required_count = 0 ∧
    (kpiRowOf hrPct [] [] (prepHr ⟨"AA BB", "J", "C", "D", "H"⟩)).missing_required_count = 0 ∧
    (kpiRowOf hrPct [] [] (prepHr ⟨"AA BB", "J", "C", "D", "H"⟩)).unassigned_mandatory_count = 0 ∧
    (kpiRowOf hrPct [] [] (prepHr ⟨"AA BB", "J", "C", "D", "H"⟩)).completion_pct = none :=
  employee_no_joined_requirements_zeroed hrPct [] []
    ⟨"AA BB", "J", "C", "D", "H"⟩ (by decide) (by decide)

/-- C3: in every requirement-status row, curriculum_done holds exactly
when the pair is completed, or is assigned, uncompleted, and has a
non-null days_remaining ≥ 0 (zero counts as on time); moreover an
unassigned pair is uncompleted, has null days_remaining, and is not done. -/
theorem is_done_boundary_policy (hr : List HrRow) (roles : List RoleRow) (st : List StatusRow)
    (row : RequiredDetailRow) (hrow : row ∈ requiredDetail hr roles st) :
    (row.curriculum_done = true ↔
      (row.curriculum_completed = true ∨
        (row.is_assigned = true ∧ row.curriculum_completed = false ∧
          ∃ d : Int, row.days_remaining = some d ∧ 0 ≤ d))) ∧
    (row.is_assigned = false →
      row.curriculum_completed = false ∧ row.days_remaining = none ∧
        row.curriculum_done = false) := by
  rw [requiredDetail] at hrow
  obtain ⟨r, hr1, rfl⟩ := List.mem_map.mp hrow
  rw [reqWithStatus] at hr1
  obtain ⟨p, hp, rfl⟩ := List.mem_map.mp hr1
  cases hagg : statusAggFor hr st (employeeKey p.1) p.2.curriculum_id with
  | none =>
    refine ⟨by simp [mkReqStatusRow, hagg], fun _ => by simp [mkReqStatusRow, hagg]⟩
  | some a =>
    obtain ⟨b, dopt⟩ := a
    refine ⟨?_, fun hassigned => ?_⟩
    · cases b with
      | true => simp [mkReqStatusRow, hagg]
      | false =>
        cases dopt with
        | none => simp [mkReqStatusRow, hagg, optNonneg]
        | some d => simp [mkReqStatusRow, hagg, optNonneg]
    · exact absurd hassigned (by simp [mkReqStatusRow, hagg])

def rowDays : RequiredDetailRow :=
  ⟨"AA BB", "J", "C", "D", "H", "M1", "TM", true, true, true, some 5, true⟩

theorem is_done_boundary_policy_witness :
    (rowDays.curriculum_done = true ↔
      (rowDays.curriculum_completed = true ∨
        (rowDays.is_assigned = true ∧ rowDays.curriculum_completed = false ∧
          ∃ d : Int, rowDays.days_remaining = some d ∧ 0 ≤ d))) ∧
    (rowDays.is_assigned = false →
      rowDays.curriculum_completed = false ∧ rowDays.days_remaining = none ∧
        rowDays.curriculum_done = false) :=
  is_done_boundary_policy hrDays rolesDays stDays rowDays (by decide)

/-! ## Unresolved-record exclusion -/

/-- The status rows whose records resolve to an employee. -/
def resolvedOnly (hr : List HrRow) (st : List StatusRow) : List StatusRow :=
  st.filter (fun r =>
    (resolveEmpKey (hr.map prepHr) (prepStatus r).user_name (prepStatus r).org_desc).isSome)

theorem filterMap_filter_of_none {α β : Type} (l : List α) (q : α → Bool) (f : α → Option β)
    (h : ∀ a, q a = false → f a = none) : (l.filter q).filterMap f = l.filterMap f := by
  induction l with
  | nil => rfl
  | cons a t ih =>
    rw [List.filter_cons]
    by_cases hq : q a = true
    · rw [if_pos hq, List.filterMap_cons, List.filterMap_cons]
      cases f a <;> rw [ih]
    · rw [if_neg hq, List.filterMap_cons, h a (Bool.not_eq_true _ ▸ hq), ih]

theorem filter_filter_of_imp {α : Type} (l : List α) (p q : α → Bool)
    (h : ∀ a, p a = true → q a = true) : (l.filter q).filter p = l.filter p := by
  induction l with
  | nil => rfl
  | cons a t ih =>
    rw [List.filter_cons, List.filter_cons]
    by_cases hq : q a = true
    · rw [if_pos hq, List.filter_cons, ih]
    · rw [if_neg hq, ih]
      by_cases hp : p a = true
      · exact absurd (h a hp) hq
      · rw [if_neg hp]

theorem processStatus_resolvedOnly (hr : List HrRow) (st : List StatusRow) :
    processStatus hr (resolvedOnly hr st) =
      (processStatus hr st).filter (fun r => r.emp_key.isSome) := by
  unfold processStatus resolvedOnly
  rw [List.filter_map]
  congr 1

theorem resolvedStatus_resolvedOnly (hr : List HrRow) (st : List StatusRow) :
    resolvedStatus hr (resolvedOnly hr st) = resolvedStatus hr st := by
  unfold resolvedStatus
  rw [processStatus_resolvedOnly]
  refine filterMap_filter_of_none _ _ _ (fun a ha => ?_)
  cases hk : a.emp_key with
  | none => simp [hk]
  | some e => rw [hk] at ha; simp at ha

theorem statusCompletedResolved_resolvedOnly (hr : List HrRow) (st : List StatusRow) :
    statusCompletedResolved hr (resolvedOnly hr st) = statusCompletedResolved hr st := by
  unfold statusCompletedResolved
  rw [processStatus_resolvedOnly]
  refine filter_filter_of_imp _ _ _ (fun a ha => ?_)
  exact ((Bool.and_eq_true _ _).mp ha).2

theorem statusAggFor_resolvedOnly (hr : List HrRow) (st : List StatusRow) :
    statusAggFor hr (resolvedOnly hr st) = statusAggFor hr st := by
  funext e c
  unfold statusAggFor
  rw [resolvedStatus_resolvedOnly]

theorem mkReqStatusRow_resolvedOnly (hr : List HrRow) (st : List StatusRow) :
    mkReqStatusRow hr (resolvedOnly hr st) = mkReqStatusRow hr st := by
  funext p
  unfold mkReqStatusRow
  rw [statusAggFor_resolvedOnly]

theorem reqWithStatus_resolvedOnly (hr : List HrRow) (roles : List RoleRow)
    (st : List StatusRow) :
    reqWithStatus hr roles (resolvedOnly hr st) = reqWithStatus hr roles st := by
  unfold reqWithStatus
  rw [mkReqStatusRow_resolvedOnly]

theorem extraDetail_resolvedOnly (hr : List HrRow) (roles : List RoleRow)
    (st : List StatusRow) :
    extraDetail hr roles (resolvedOnly hr st) = extraDetail hr roles st := by
  unfold extraDetail
  rw [statusCompletedResolved_resolvedOnly]

/-- C5: a status record resolves to an employee key exactly when its
`(user key, normalized org_desc)` bucket holds exactly one employee key —
and dropping the unresolved records changes none of the three outputs:
they contribute to neither the requirement-status aggregation nor the
extra-completions table nor any KPI count. -/
theorem resolution_requires_unique_bucket :
    (∀ (hr : List HrRow) (u o : String),
      ((resolveEmpKey hr u o).isSome = true ↔
        (bucketEmpKeys hr (userKeyFromUserName u, normalizeText o)).length = 1) ∧
      (∀ e, resolveEmpKey hr u o = some e ↔
        bucketEmpKeys hr (userKeyFromUserName u, normalizeText o) = [e])) ∧
    (∀ (hr : List HrRow) (roles : List RoleRow) (st : List StatusRow),
      requiredDetail hr roles st = requiredDetail hr roles (resolvedOnly hr st) ∧
      extraDetail hr roles st = extraDetail hr roles (resolvedOnly hr st) ∧
      employeeKpis hr roles st = employeeKpis hr roles (resolvedOnly hr st)) := by
  constructor
  · intro hr u o
    unfold resolveEmpKey
    cases hb : bucketEmpKeys hr (userKeyFromUserName u, normalizeText o) with
    | nil => simp
    | cons e t =>
      cases t with
      | nil => simp
      | cons f t2 => simp
  · intro hr roles st
    refine ⟨?_, (extraDetail_resolvedOnly hr roles st).symm, ?_⟩
    · unfold requiredDetail
      rw [reqWithStatus_resolvedOnly]
    · unfold employeeKpis employeeKpisStage
      rw [reqWithStatus_resolvedOnly, extraDetail_resolvedOnly]

theorem dupMarked_eq_nil_iff (l : List String) (seen : List String) :
    dupMarked seen l = [] ↔ l.Nodup ∧ ∀ k ∈ l, k ∉ seen := by
  induction l generalizing seen with
  | nil => simp [dupMarked]
  | cons k rest ih =>
    rw [dupMarked]
    by_cases hc : seen.contains k = true
    · have hk : k ∈ seen := by simpa using hc
      rw [if_pos hc]
      simp only [List.cons_append, List.nil_append]
      constructor
      · intro h; cases h
      · rintro ⟨-, hall⟩
        exact absurd hk (hall k (List.mem_cons_self k rest))
    · have hk : k ∉ seen := by simpa using hc
      rw [if_neg hc, List.nil_append, ih (k :: seen)]
      constructor
      · rintro ⟨hnd, hall⟩
        refine ⟨List.nodup_cons.mpr ⟨fun hkr => ?_, hnd⟩, fun x hx => ?_⟩
        · exact absurd (List.mem_cons_self k seen) (hall k hkr)
        · rcases List.mem_cons.mp hx with rfl | hxr
          · exact hk
          · exact fun hxs => (hall x hxr) (List.mem_cons_of_mem k hxs)
      · rintro ⟨hnd, hall⟩
        rw [List.nodup_cons] at hnd
        refine ⟨hnd.2, fun x hx hxk => ?_⟩
        rcases List.mem_cons.mp hxk with rfl | hxs
        · exact hnd.1 hx
        · exact (hall x (List.mem_cons_of_mem k hx)) hxs

theorem dupKeys_eq_nil_iff (hr : List HrRow) :
    dupKeys hr = [] ↔ (hr.map employeeKey).Nodup := by
  unfold dupKeys
  rw [List.dedup_eq_nil, dupMarked_eq_nil_iff]
  simp

/-- C9: validate_data (a total function) reports the ERROR-level issue
HR_DUPLICATE_EMPLOYEE_KEY — carrying a sample (first 10) of the duplicated
canonical keys — exactly when the roster's canonical employee keys are not
pairwise distinct, and no such issue otherwise. -/
theorem duplicate_employee_key_issue (hr : List HrRow) (roles : List RoleRow)
    (st : List StatusRow) :
    (validateData hr roles st).filter (fun i => i.code == "HR_DUPLICATE_EMPLOYEE_KEY") =
      (if dupKeys hr = [] then []
       else [{ level := "ERROR", code := "HR_DUPLICATE_EMPLOYEE_KEY",
               details := IssueDetails.duplicateKeys ((dupKeys hr).take 10)
                 (dupKeys hr).length }]) ∧
    (dupKeys hr = [] ↔ ¬ (∃ i j, i < j ∧ j < hr.length ∧
      (hr.map employeeKey).get? i = (hr.map employeeKey).get? j ∧
        ((hr.map employeeKey).get? i).isSome)) := by
  constructor
  · simp only [validateData]
    rw [List.filter_append, List.filter_append]
    have h23 : ∀ (l1 l2 l3 X : List Issue),
        l1.filter (fun i => i.code == "HR_DUPLICATE_EMPLOYEE_KEY") = X →
        l2.filter (fun i => i.code == "HR_DUPLICATE_EMPLOYEE_KEY") = [] →
        l3.filter (fun i => i.code == "HR_DUPLICATE_EMPLOYEE_KEY") = [] →
        l1.filter (fun i => i.code == "HR_DUPLICATE_EMPLOYEE_KEY") ++
          l2.filter (fun i => i.code == "HR_DUPLICATE_EMPLOYEE_KEY") ++
          l3.filter (fun i => i.code == "HR_DUPLICATE_EMPLOYEE_KEY") = X := by
      intro l1 l2 l3 X e1 e2 e3
      rw [e1, e2, e3, List.append_nil, List.append_nil]
    refine h23 _ _ _ _ ?_ ?_ ?_
    · by_cases hd : (dupKeys hr).isEmpty = true
      · have hd' : dupKeys hr = [] := by simpa using hd
        rw [if_pos hd, if_pos hd']
        rfl
      · have hd' : ¬ dupKeys hr = [] := by simpa using hd
        rw [if_neg hd, if_neg hd']
        simp [List.filter]
    · split
      · rfl
      · simp [List.filter]
    · split
      · rfl
      · simp [List.filter]
  · rw [dupKeys_eq_nil_iff]
    constructor
    · intro hnd ⟨i, j, hij, hjl, heq, hsome⟩
      have hil : i < (hr.map employeeKey).length := by
        rw [List.length_map]
        exact lt_trans hij hjl
      have hjl2 : j < (hr.map employeeKey).length := by
        rw [List.length_map]; exact hjl
      rw [List.get?_eq_get hil, List.get?_eq_get hjl2] at heq
      have := List.Nodup.get_inj_iff hnd |>.mp (Option.some_injective _ heq)
      rw [Fin.mk_eq_mk] at this
      exact absurd this (Nat.ne_of_lt hij)
    · intro hno
      rw [List.nodup_iff_get?_ne_get?]
      intro i j hij hjl
      intro heq
      refine hno ⟨i, j, hij, by simpa using hjl, heq, ?_⟩
      rw [List.get?_eq_get (by rw [List.length_map] at hjl ⊢; exact lt_trans hij hjl)]
      simp

theorem segmentOf_isSome (o : Option ℚ) : (segmentOf o).isSome = o.isSome := by
  cases o with
  | none => rfl
  | some x =>
    simp only [segmentOf]
    split
    · rfl
    · split <;> rfl

theorem seg_countP_sum (l : List EmployeeKpiRow) :
    l.countP (fun e => segmentOf e.completion_pct == some "<70%") +
      l.countP (fun e => segmentOf e.completion_pct == some "70–89%") +
      l.countP (fun e => segmentOf e.completion_pct == some ">=90%") =
      l.countP (fun e => e.completion_pct.isSome) := by
  induction l with
  | nil => rfl
  | cons e t ih =>
    rw [List.countP_cons, List.countP_cons, List.countP_cons, List.countP_cons]
    cases hp : e.completion_pct with
    | none =>
      have o1 : ((segmentOf none : Option String) == some "<70%") = false := by decide
      have o2 : ((segmentOf none : Option String) == some "70–89%") = false := by decide
      have o3 : ((segmentOf none : Option String) == some ">=90%") = false := by decide
      rw [o1, o2, o3]
      simp only [Bool.false_eq_true, if_false, Option.isSome_none]
      omega
    | some x =>
      simp only [Option.isSome_some, if_true]
      by_cases h90 : (90 : ℚ) ≤ x
      · have hseg : segmentOf (some x) = some ">=90%" := by
          simp only [segmentOf]
          rw [if_pos h90]
        rw [hseg]
        have e1 : ((some ">=90%" : Option String) == some "<70%") = false := by decide
        have e2 : ((some ">=90%" : Option String) == some "70–89%") = false := by decide
        have e3 : ((some ">=90%" : Option String) == some ">=90%") = true := by decide
        rw [e1, e2, e3]
        simp only [Bool.false_eq_true, if_false, if_true]
        omega
      · by_cases h70 : (70 : ℚ) ≤ x
        · have hseg : segmentOf (some x) = some "70–89%" := by
            simp only [segmentOf]
            rw [if_neg h90, if_pos h70]
          rw [hseg]
          have e1 : ((some "70–89%" : Option String) == some "<70%") = false := by decide
          have e2 : ((some "70–89%" : Option String) == some "70–89%") = true := by decide
          have e3 : ((some "70–89%" : Option String) == some ">=90%") = false := by decide
          rw [e1, e2, e3]
          simp only [Bool.false_eq_true, if_false, if_true]
          omega
        · have hseg : segmentOf (some x) = some "<70%" := by
            simp only [segmentOf]
            rw [if_neg h90, if_neg h70]
          rw [hseg]
          have e1 : ((some "<70%" : Option String) == some "<70%") = true := by decide
          have e2 : ((some "<70%" : Option String) == some "70–89%") = false := by decide
          have e3 : ((some "<70%" : Option String) == some ">=90%") = false := by decide
          rw [e1, e2, e3]
          simp only [Bool.false_eq_true, if_false, if_true]
          omega

theorem segmentOf_buckets (x : ℚ) :
    (segmentOf (some x) = some ">=90%" ↔ 90 ≤ x) ∧
    (segmentOf (some x) = some "70–89%" ↔ 70 ≤ x ∧ x < 90) ∧
    (segmentOf (some x) = some "<70%" ↔ x < 70) := by
  simp only [segmentOf]
  by_cases h90 : (90 : ℚ) ≤ x
  · rw [if_pos h90]
    refine ⟨by simp [h90], ?_, ?_⟩
    · constructor
      · intro h; exact absurd (Option.some_injective _ h) (by decide)
      · rintro ⟨-, hlt⟩; exact absurd h90 (not_le.mpr hlt)
    · constructor
      · intro h; exact absurd (Option.some_injective _ h) (by decide)
      · intro hlt; exact absurd h90 (not_le.mpr (lt_trans hlt (by norm_num)))
  · rw [if_neg h90]
    by_cases h70 : (70 : ℚ) ≤ x
    · rw [if_pos h70]
      refine ⟨?_, by simp [h70, not_le.mp h90], ?_⟩
      · constructor
        · intro h; exact absurd (Option.some_injective _ h) (by decide)
        · intro h; exact absurd h h90
      · constructor
        · intro h; exact absurd (Option.some_injective _ h) (by decide)
        · intro hlt; exact absurd h70 (not_le.mpr hlt)
    · rw [if_neg h70]
      refine ⟨?_, ?_, by simp [not_le.mp h70]⟩
      · constructor
        · intro h; exact absurd (Option.some_injective _ h) (by decide)
        · intro h; exact absurd h h90
      · constructor
        · intro h; exact absurd (Option.some_injective _ h) (by decide)
        · rintro ⟨hge, -⟩; exact absurd hge h70

/-- C8 (amended): per department group, the mean completion percentage is
taken only over employees with a non-null completion_pct; a non-null
percentage falls into exactly one of the three buckets (lower bounds
inclusive) and a null one into none; when the group has at least one
bucketed employee the three count cells are numeric and sum to the number
of employees with non-null completion_pct, and when it has none the three
cells are null. -/
theorem department_mean_and_buckets (emps : List EmployeeKpiRow) (d : DeptKpiRow)
    (hd : d ∈ computeDepartmentKpis emps) :
    (d.avg_completion_pct =
      (if ((emps.filter (fun e => (e.org_code, e.org_desc) == (d.org_code, d.org_desc))).filterMap
            (·.completion_pct)).isEmpty then none
       else some (((emps.filter (fun e => (e.org_code, e.org_desc) == (d.org_code, d.org_desc))).filterMap
            (·.completion_pct)).sum /
          (((emps.filter (fun e => (e.org_code, e.org_desc) == (d.org_code, d.org_desc))).filterMap
            (·.completion_pct)).length : ℚ)))) ∧
    (∀ x : ℚ, (segmentOf (some x) = some ">=90%" ↔ 90 ≤ x) ∧
      (segmentOf (some x) = some "70–89%" ↔ 70 ≤ x ∧ x < 90) ∧
      (segmentOf (some x) = some "<70%" ↔ x < 70)) ∧
    segmentOf none = none ∧
    (if 0 < (emps.filter (fun e => (e.org_code, e.org_desc) == (d.org_code, d.org_desc))).countP
        (fun e => e.completion_pct.isSome) then
      d.seg_lt_70 = some ((emps.filter (fun e => (e.org_code, e.org_desc) == (d.org_code, d.org_desc))).countP
        (fun e => segmentOf e.completion_pct == some "<70%")) ∧
      d.seg_70_89 = some ((emps.filter (fun e => (e.org_code, e.org_desc) == (d.org_code, d.org_desc))).countP
        (fun e => segmentOf e.completion_pct == some "70–89%")) ∧
      d.seg_ge_90 = some ((emps.filter (fun e => (e.org_code, e.org_desc) == (d.org_code, d.org_desc))).countP
        (fun e => segmentOf e.completion_pct == some ">=90%")) ∧
      (emps.filter (fun e => (e.org_code, e.org_desc) == (d.org_code, d.org_desc))).countP
          (fun e => segmentOf e.completion_pct == some "<70%") +
        (emps.filter (fun e => (e.org_code, e.org_desc) == (d.org_code, d.org_desc))).countP
          (fun e => segmentOf e.completion_pct == some "70–89%") +
        (emps.filter (fun e => (e.org_code, e.org_desc) == (d.org_code, d.org_desc))).countP
          (fun e => segmentOf e.completion_pct == some ">=90%") =
        (emps.filter (fun e => (e.org_code, e.org_desc) == (d.org_code, d.org_desc))).countP
          (fun e => e.completion_pct.isSome)
    else d.seg_lt_70 = none ∧ d.seg_70_89 = none ∧ d.seg_ge_90 = none) := by
  rw [computeDepartmentKpis] at hd
  obtain ⟨⟨oc, od⟩, hk, rfl⟩ := List.mem_map.mp hd
  refine ⟨rfl, fun x => segmentOf_buckets x, rfl, ?_⟩
  have hrel : ((emps.filter (fun e => (e.org_code, e.org_desc) == (oc, od))).any
        (fun e => (segmentOf e.completion_pct).isSome)) = true ↔
      0 < (emps.filter (fun e => (e.org_code, e.org_desc) == (oc, od))).countP
        (fun e => e.completion_pct.isSome) := by
    rw [List.any_eq_true, List.countP_pos]
    constructor
    · rintro ⟨e, he, hseg⟩
      rw [segmentOf_isSome] at hseg
      exact ⟨e, he, hseg⟩
    · rintro ⟨e, he, hsome⟩
      refine ⟨e, he, ?_⟩
      rw [segmentOf_isSome]
      exact hsome
  by_cases hpos : 0 < (emps.filter (fun e => (e.org_code, e.org_desc) == (oc, od))).countP
      (fun e => e.completion_pct.isSome)
  · rw [if_pos hpos]
    have hany := hrel.mpr hpos
    refine ⟨?_, ?_, ?_, seg_countP_sum _⟩
    · show (if (emps.filter (fun e => (e.org_code, e.org_desc) == (oc, od))).any
          (fun e => (segmentOf e.completion_pct).isSome) then
            some ((emps.filter (fun e => (e.org_code, e.org_desc) == (oc, od))).countP
              (fun e => segmentOf e.completion_pct == some "<70%"))
          else none) = _
      rw [hany, if_pos rfl]
    · show (if (emps.filter (fun e => (e.org_code, e.org_desc) == (oc, od))).any
          (fun e => (segmentOf e.completion_pct).isSome) then
            some ((emps.filter (fun e => (e.org_code, e.org_desc) == (oc, od))).countP
              (fun e => segmentOf e.completion_pct == some "70–89%"))
          else none) = _
      rw [hany, if_pos rfl]
    · show (if (emps.filter (fun e => (e.org_code, e.org_desc) == (oc, od))).any
          (fun e => (segmentOf e.completion_pct).isSome) then
            some ((emps.filter (fun e => (e.org_code, e.org_desc) == (oc, od))).countP
              (fun e => segmentOf e.completion_pct == some ">=90%"))
          else none) = _
      rw [hany, if_pos rfl]
  · rw [if_neg hpos]
    have hany : ((emps.filter (fun e => (e.org_code, e.org_desc) == (oc, od))).any
        (fun e => (segmentOf e.completion_pct).isSome)) = false := by
      rw [← Bool.not_eq_true]
      intro hc
      exact hpos (hrel.mp hc)
    refine ⟨?_, ?_, ?_⟩
    · show (if (emps.filter (fun e => (e.org_code, e.org_desc) == (oc, od))).any
          (fun e => (segmentOf e.completion_pct).isSome) then
            some ((emps.filter (fun e => (e.org_code, e.org_desc) == (oc, od))).countP
              (fun e => segmentOf e.completion_pct == some "<70%"))
          else none) = _
      rw [hany]
      rfl
    · show (if (emps.filter (fun e => (e.org_code, e.org_desc) == (oc, od))).any
          (fun e => (segmentOf e.completion_pct).isSome) then
            some ((emps.filter (fun e => (e.org_code, e.org_desc) == (oc, od))).countP
              (fun e => segmentOf e.completion_pct == some "70–89%"))
          else none) = _
      rw [hany]
      rfl
    · show (if (emps.filter (fun e => (e.org_code, e.org_desc) == (oc, od))).any
          (fun e => (segmentOf e.completion_pct).isSome) then
            some ((emps.filter (fun e => (e.org_code, e.org_desc) == (oc, od))).countP
              (fun e => segmentOf e.completion_pct == some ">=90%"))
          else none) = _
      rw [hany]
      rfl

def deptNoReq : DeptKpiRow := ⟨"C", "D", 1, 0, 0, none, none, none, none, none⟩

theorem department_mean_and_buckets_witness :
    deptNoReq ∈ computeDepartmentKpis [empNoReq] ∧
    deptNoReq.seg_lt_70 = none ∧ deptNoReq.seg_70_89 = none ∧ deptNoReq.seg_ge_90 = none := by
  have hmem : deptNoReq ∈ computeDepartmentKpis [empNoReq] := by decide
  have h := department_mean_and_buckets [empNoReq] deptNoReq hmem
  have h4 := h.2.2.2
  rw [if_neg (by decide)] at h4
  exact ⟨hmem, h4⟩

/-! ## Candidate-key enumeration -/

theorem wordsAux_words (l : List Char) :
    ∀ (acc : List Char), (∀ c ∈ acc, isPySpace c = false) →
      ∀ w ∈ wordsAux acc l, w ≠ [] ∧ ∀ c ∈ w, isPySpace c = false := by
  induction l with
  | nil =>
    intro acc hacc w hw
    rw [wordsAux] at hw
    by_cases ha : acc = []
    · rw [if_pos ha] at hw
      cases hw
    · rw [if_neg ha] at hw
      rcases List.mem_cons.mp hw with rfl | hw2
      · exact ⟨by simpa using ha, fun ch hch => hacc ch (List.mem_reverse.mp hch)⟩
      · cases hw2
  | cons c rest ih =>
    intro acc hacc w hw
    rw [wordsAux] at hw
    by_cases hsp : isPySpace c = true
    · rw [if_pos hsp] at hw
      by_cases ha : acc = []
      · rw [if_pos ha] at hw
        exact ih [] (by simp) w hw
      · rw [if_neg ha] at hw
        rcases List.mem_cons.mp hw with rfl | hw2
        · exact ⟨by simpa using ha, fun ch hch => hacc ch (List.mem_reverse.mp hch)⟩
        · exact ih [] (by simp) w hw2
    · rw [if_neg hsp] at hw
      refine ih (c :: acc) ?_ w hw
      intro ch hch
      rcases List.mem_cons.mp hch with rfl | h2
      · exact Bool.not_eq_true _ ▸ hsp
      · exact hacc ch h2

theorem nameTokens_facts (s : String) :
    ∀ t ∈ nameTokens s, t ≠ "" ∧ ∀ c ∈ t.data, isPySpace c = false := by
  intro t ht
  unfold nameTokens pySplitWs at ht
  obtain ⟨w, hw, rfl⟩ := List.mem_map.mp ht
  obtain ⟨hne, hch⟩ := wordsAux_words _ [] (by simp) w hw
  refine ⟨fun hc => hne ?_, hch⟩
  simpa using congrArg String.data hc

theorem joinSpace_ne_empty (ws : List String) (hne : ws ≠ [])
    (hall : ∀ w ∈ ws, w ≠ "") : joinSpace ws ≠ "" := by
  cases ws with
  | nil => exact absurd rfl hne
  | cons w t =>
    have hw : w ≠ "" := hall w (List.mem_cons_self w t)
    cases t with
    | nil => exact hw
    | cons w2 t2 =>
      have hj : joinSpace (w :: w2 :: t2) = w ++ " " ++ joinSpace (w2 :: t2) := rfl
      rw [hj]
      intro hc
      have hdata := congrArg String.data hc
      rw [String.data_append, String.data_append] at hdata
      have hwd : w.data = [] := (List.append_eq_nil.mp (List.append_eq_nil.mp hdata).1).1
      exact hw (congrArg String.mk hwd)

theorem joinSpace_ends (ws : List String)
    (hws : ∀ w ∈ ws, w ≠ "" ∧ ∀ c ∈ w.data, isPySpace c = false) :
    (∀ a, (joinSpace ws).data.head? = some a → isPySpace a = false) ∧
    (∀ a, (joinSpace ws).data.getLast? = some a → isPySpace a = false) := by
  induction ws with
  | nil => exact ⟨(fun a ha => by cases ha), (fun a ha => by cases ha)⟩
  | cons w t ih =>
    have hw := hws w (List.mem_cons_self w t)
    cases t with
    | nil =>
      have hj : joinSpace [w] = w := rfl
      rw [hj]
      refine ⟨fun a ha => hw.2 a (List.mem_of_mem_head? (by simp [ha])),
        fun a ha => hw.2 a (List.mem_of_mem_getLast? (by simp [ha]))⟩
    | cons w2 t2 =>
      have iht := ih (fun x hx => hws x (List.mem_cons_of_mem w hx))
      have hjne : joinSpace (w2 :: t2) ≠ "" :=
        joinSpace_ne_empty _ (by simp) (fun x hx => (hws x (List.mem_cons_of_mem w hx)).1)
      have hdata : (joinSpace (w :: w2 :: t2)).data =
          w.data ++ (' ' :: (joinSpace (w2 :: t2)).data) := by
        have hj : joinSpace (w :: w2 :: t2) = w ++ " " ++ joinSpace (w2 :: t2) := rfl
        rw [hj, String.data_append, String.data_append, List.append_assoc]
        rfl
      constructor
      · intro a ha
        rw [hdata] at ha
        cases hwdata : w.data with
        | nil => exact absurd (congrArg String.mk hwdata) hw.1
        | cons c cs =>
          rw [hwdata] at ha
          simp only [List.cons_append, List.head?_cons] at ha
          refine hw.2 a ?_
          rw [hwdata]
          rw [Option.some_inj] at ha
          rw [ha]
          exact List.mem_cons_self a cs
      · intro a ha
        rw [hdata] at ha
        rw [List.getLast?_append_of_ne_nil _ (by simp)] at ha
        have hjdata : (joinSpace (w2 :: t2)).data ≠ [] := by
          intro hc
          exact hjne (congrArg String.mk hc)
        rw [show (' ' :: (joinSpace (w2 :: t2)).data) = [' '] ++ (joinSpace (w2 :: t2)).data from rfl,
          List.getLast?_append_of_ne_nil _ hjdata] at ha
        exact iht.2 a ha

theorem pyStrip_eq_self (l : List Char)
    (hh : ∀ a, l.head? = some a → isPySpace a = false)
    (hl : ∀ a, l.getLast? = some a → isPySpace a = false) : pyStrip l = l := by
  unfold pyStrip
  have h1 : l.dropWhile isPySpace = l := by
    cases l with
    | nil => rfl
    | cons a t =>
      rw [List.dropWhile_cons, if_neg]
      rw [hh a rfl]
      simp
  rw [h1]
  have h2 : l.reverse.dropWhile isPySpace = l.reverse := by
    cases hr : l.reverse with
    | nil => rfl
    | cons a t =>
      rw [List.dropWhile_cons, if_neg]
      have hla : l.getLast? = some a := by
        rw [← List.head?_reverse, hr]
        rfl
      rw [hl a hla]
      simp
  rw [h2, List.reverse_reverse]

theorem pyStripStr_eq_self (s : String)
    (hh : ∀ a, s.data.head? = some a → isPySpace a = false)
    (hl : ∀ a, s.data.getLast? = some a → isPySpace a = false) : pyStripStr s = s := by
  unfold pyStripStr
  rw [pyStrip_eq_self s.data hh hl]

/-- C4: for a roster full name whose normalized form has n ≥ 2 whitespace
tokens, candidate-key generation emits exactly the keys "GIVEN, SURNAME",
where GIVEN is the last i+1 tokens and SURNAME the first n-(i+1), for
i+1 = 1..min(3, n-1); every emitted side is non-empty, so no candidate is
filtered out. -/
theorem candidate_keys_enumeration (full_name : String)
    (h2 : 2 ≤ (nameTokens (normalizeText full_name)).length) :
    candidateUserKeys full_name =
      (List.range (min 3 ((nameTokens (normalizeText full_name)).length - 1))).map (fun i =>
        joinSpace ((nameTokens (normalizeText full_name)).drop
            ((nameTokens (normalizeText full_name)).length - (i + 1))) ++ ", " ++
          joinSpace ((nameTokens (normalizeText full_name)).take
            ((nameTokens (normalizeText full_name)).length - (i + 1)))) := by
  have hfacts := nameTokens_facts (normalizeText full_name)
  simp only [candidateUserKeys]
  rw [if_neg (by omega)]
  refine filterMap_eq_map_of_forall _ _ _ (fun i hi => ?_)
  rw [List.mem_range, lt_min_iff] at hi
  have hik : 1 ≤ (nameTokens (normalizeText full_name)).length - (i + 1) := by omega
  have htakeP : ∀ w ∈ (nameTokens (normalizeText full_name)).take
      ((nameTokens (normalizeText full_name)).length - (i + 1)),
      w ≠ "" ∧ ∀ c ∈ w.data, isPySpace c = false :=
    fun w hw => hfacts w (List.take_subset _ _ hw)
  have hdropP : ∀ w ∈ (nameTokens (normalizeText full_name)).drop
      ((nameTokens (normalizeText full_name)).length - (i + 1)),
      w ≠ "" ∧ ∀ c ∈ w.data, isPySpace c = false :=
    fun w hw => hfacts w (List.drop_subset _ _ hw)
  have htakeNe : (nameTokens (normalizeText full_name)).take
      ((nameTokens (normalizeText full_name)).length - (i + 1)) ≠ [] := by
    rw [Ne, List.take_eq_nil_iff]
    rintro (hk | hl)
    · omega
    · rw [hl] at h2
      simp at h2
  have hdropNe : (nameTokens (normalizeText full_name)).drop
      ((nameTokens (normalizeText full_name)).length - (i + 1)) ≠ [] := by
    rw [Ne, List.drop_eq_nil_iff]
    omega
  have hsurnEq : pyStripStr (joinSpace ((nameTokens (normalizeText full_name)).take
      ((nameTokens (normalizeText full_name)).length - (i + 1)))) =
      joinSpace ((nameTokens (normalizeText full_name)).take
        ((nameTokens (normalizeText full_name)).length - (i + 1))) := by
    obtain ⟨hh, hl⟩ := joinSpace_ends _ htakeP
    exact pyStripStr_eq_self _ hh hl
  have hgivenEq : pyStripStr (joinSpace ((nameTokens (normalizeText full_name)).drop
      ((nameTokens (normalizeText full_name)).length - (i + 1)))) =
      joinSpace ((nameTokens (normalizeText full_name)).drop
        ((nameTokens (normalizeText full_name)).length - (i + 1))) := by
    obtain ⟨hh, hl⟩ := joinSpace_ends _ hdropP
    exact pyStripStr_eq_self _ hh hl
  have hsurnNe : joinSpace ((nameTokens (normalizeText full_name)).take
      ((nameTokens (normalizeText full_name)).length - (i + 1))) ≠ "" :=
    joinSpace_ne_empty _ htakeNe (fun w hw => (htakeP w hw).1)
  have hgivenNe : joinSpace ((nameTokens (normalizeText full_name)).drop
      ((nameTokens (normalizeText full_name)).length - (i + 1))) ≠ "" :=
    joinSpace_ne_empty _ hdropNe (fun w hw => (hdropP w hw).1)
  simp only [hsurnEq, hgivenEq]
  rw [if_pos ⟨hsurnNe, hgivenNe⟩]

theorem candidate_keys_enumeration_witness :
    2 ≤ (nameTokens (normalizeText "SANTANA MENDOZA JORGE")).length ∧
    candidateUserKeys "SANTANA MENDOZA JORGE" =
      ["JORGE, SANTANA MENDOZA", "MENDOZA JORGE, SANTANA"] := by
  refine ⟨by decide, ?_⟩
  rw [candidate_keys_enumeration "SANTANA MENDOZA JORGE" (by decide)]
  decide

/-! ## Normalizer idempotence -/

theorem isKeep_toNat {c : Char} (h : isKeep c = true) :
    (65 ≤ c.toNat ∧ c.toNat ≤ 90) ∨ (48 ≤ c.toNat ∧ c.toNat ≤ 57) ∨
      c.toNat = 32 ∨ c.toNat = 44 := by
  unfold isKeep at h
  simp only [Bool.or_eq_true, Bool.and_eq_true, decide_eq_true_eq] at h
  rcases h with ((⟨h1, h2⟩ | ⟨h1, h2⟩) | h) | h
  · exact Or.inl ⟨Char.le_def.mp h1, Char.le_def.mp h2⟩
  · exact Or.inr (Or.inl ⟨Char.le_def.mp h1, Char.le_def.mp h2⟩)
  · subst h; exact Or.inr (Or.inr (Or.inl rfl))
  · subst h; exact Or.inr (Or.inr (Or.inr rfl))

theorem pyUpper_keep {c : Char} (h : isKeep c = true) : pyUpper c = c := by
  have hk := isKeep_toNat h
  have h1 : ¬('a' ≤ c ∧ c ≤ 'z') := by
    rintro ⟨ha, hb⟩
    have ha2 : 97 ≤ c.toNat := Char.le_def.mp ha
    rcases hk with ⟨g1, g2⟩ | ⟨g1, g2⟩ | g1 | g1 <;> omega
  have h2 : ¬(0xE0 ≤ c.toNat ∧ c.toNat ≤ 0xFE ∧ c.toNat ≠ 0xF7) := by
    rintro ⟨ha, -, -⟩
    rcases hk with ⟨g1, g2⟩ | ⟨g1, g2⟩ | g1 | g1 <;> omega
  unfold pyUpper
  rw [if_neg h1, if_neg h2]

theorem nfdTable_keep {c : Char} (h : isKeep c = true) : nfdTable c = none := by
  have hk := isKeep_toNat h
  have hlt : c.toNat < 192 := by
    rcases hk with ⟨g1, g2⟩ | ⟨g1, g2⟩ | g1 | g1 <;> omega
  have hne : ∀ d : Char, 192 ≤ d.toNat → c ≠ d := by
    intro d hd hc
    subst hc
    omega
  unfold nfdTable
  rw [if_neg (hne 'Á' (by decide)), if_neg (hne 'É' (by decide)),
    if_neg (hne 'Í' (by decide)), if_neg (hne 'Ó' (by decide)),
    if_neg (hne 'Ú' (by decide)), if_neg (hne 'Ü' (by decide)),
    if_neg (hne 'Ñ' (by decide)), if_neg (hne 'á' (by decide)),
    if_neg (hne 'é' (by decide)), if_neg (hne 'í' (by decide)),
    if_neg (hne 'ó' (by decide)), if_neg (hne 'ú' (by decide)),
    if_neg (hne 'ü' (by decide)), if_neg (hne 'ñ' (by decide))]

theorem nfdChar_keep {c : Char} (h : isKeep c = true) : nfdChar c = [c] := by
  unfold nfdChar
  rw [nfdTable_keep h]

theorem isMn_keep {c : Char} (h : isKeep c = true) : isMn c = false := by
  have hk := isKeep_toNat h
  have hlt : ¬ (0x300 ≤ c.toNat) := by
    rcases hk with ⟨g1, g2⟩ | ⟨g1, g2⟩ | g1 | g1 <;> omega
  unfold isMn
  rw [decide_eq_false hlt, Bool.false_and]

theorem keepChar_keep {c : Char} (h : isKeep c = true) : keepChar c = c := by
  unfold keepChar
  rw [if_pos h]

theorem isKeep_keepChar (d : Char) : isKeep (keepChar d) = true := by
  unfold keepChar
  by_cases h : isKeep d = true
  · rw [if_pos h]; exact h
  · rw [if_neg h]; decide

theorem keep_pyspace_char {c : Char} (h : isKeep c = true) (hsp : isPySpace c = true) :
    c = ' ' := by
  have hk := isKeep_toNat h
  simp only [isPySpace, Bool.or_eq_true, decide_eq_true_eq] at hsp
  rcases hsp with ((((rfl | rfl) | rfl) | rfl) | rfl) | rfl
  · rfl
  all_goals revert hk
  all_goals decide

theorem keep_respace_char {c : Char} (h : isKeep c = true) (hsp : isReSpace c = true) :
    c = ' ' := by
  have hk := isKeep_toNat h
  simp only [isReSpace, Bool.or_eq_true, decide_eq_true_eq] at hsp
  rcases hsp with ((((rfl | rfl) | rfl) | rfl) | rfl) | rfl
  · rfl
  all_goals revert hk
  all_goals decide

theorem mem_collapseWsAux {c : Char} :
    ∀ (l : List Char) (b : Bool), c ∈ collapseWsAux b l → c ∈ l ∨ c = ' ' := by
  intro l
  induction l with
  | nil =>
    intro b h
    rw [collapseWsAux] at h
    cases h
  | cons a t ih =>
    intro b h
    rw [collapseWsAux] at h
    by_cases hsp : isReSpace a = true
    · rw [if_pos hsp] at h
      cases b with
      | true =>
        rw [if_pos rfl] at h
        rcases ih true h with h2 | h2
        · exact Or.inl (List.mem_cons_of_mem a h2)
        · exact Or.inr h2
      | false =>
        rw [if_neg (by simp)] at h
        rcases List.mem_cons.mp h with rfl | h2
        · exact Or.inr rfl
        · rcases ih true h2 with h3 | h3
          · exact Or.inl (List.mem_cons_of_mem a h3)
          · exact Or.inr h3
    · rw [if_neg hsp] at h
      rcases List.mem_cons.mp h with rfl | h2
      · exact Or.inl (List.mem_cons_self c t)
      · rcases ih false h2 with h3 | h3
        · exact Or.inl (List.mem_cons_of_mem a h3)
        · exact Or.inr h3

theorem mem_pyStrip {c : Char} {l : List Char} (h : c ∈ pyStrip l) : c ∈ l := by
  unfold pyStrip at h
  rw [List.mem_reverse] at h
  have h2 := (List.dropWhile_suffix isPySpace).subset h
  rw [List.mem_reverse] at h2
  exact (List.dropWhile_suffix isPySpace).subset h2

theorem normalizeChars_keep (l : List Char) :
    ∀ c ∈ normalizeChars l, isKeep c = true := by
  intro c hc
  have h1 := mem_pyStrip hc
  rcases mem_collapseWsAux _ false h1 with h2 | rfl
  · obtain ⟨d, -, rfl⟩ := List.mem_map.mp h2
    exact isKeep_keepChar d
  · decide

/-- No two adjacent whitespace characters. -/
def noWsPair (a b : Char) : Prop := ¬(isReSpace a = true ∧ isReSpace b = true)

theorem collapseWsAux_chain (l : List Char) :
    ∀ b : Bool, List.Chain' noWsPair (collapseWsAux b l) ∧
      (b = true → ∀ a, (collapseWsAux b l).head? = some a → isReSpace a = false) := by
  induction l with
  | nil =>
    intro b
    rw [collapseWsAux]
    exact ⟨List.chain'_nil, fun _ a ha => by cases ha⟩
  | cons c t ih =>
    intro b
    rw [collapseWsAux]
    by_cases hsp : isReSpace c = true
    · rw [if_pos hsp]
      cases b with
      | true =>
        rw [if_pos rfl]
        exact ih true
      | false =>
        rw [if_neg (by simp)]
        refine ⟨List.chain'_cons'.mpr ⟨fun a ha => ?_, (ih true).1⟩, fun hb => by cases hb⟩
        rintro ⟨-, ha2⟩
        rw [(ih true).2 rfl a (Option.mem_def.mp ha)] at ha2
        cases ha2
    · rw [if_neg hsp]
      refine ⟨List.chain'_cons'.mpr ⟨fun a _ => ?_, (ih false).1⟩,
        fun _ a ha => by rw [← Option.some_inj.mp ha]; exact Bool.not_eq_true _ ▸ hsp⟩
      rintro ⟨hc1, -⟩
      exact absurd hc1 hsp

theorem collapseWsAux_fixed (l : List Char) :
    ∀ b : Bool, (∀ c ∈ l, isReSpace c = true → c = ' ') → List.Chain' noWsPair l →
      (b = true → ∀ a, l.head? = some a → isReSpace a = false) →
      collapseWsAux b l = l := by
  induction l with
  | nil => intro b _ _ _; rw [collapseWsAux]
  | cons c t ih =>
    intro b hall hch hhd
    rw [collapseWsAux]
    by_cases hsp : isReSpace c = true
    · have hc : c = ' ' := hall c (List.mem_cons_self c t) hsp
      rw [if_pos hsp]
      cases b with
      | true => exact absurd hsp (by rw [hhd rfl c rfl]; simp)
      | false =>
        rw [if_neg (by simp)]
        have htail : collapseWsAux true t = t := by
          refine ih true (fun x hx => hall x (List.mem_cons_of_mem c hx))
            (List.Chain'.tail hch) (fun _ a ha => ?_)
          have hR := List.chain'_cons'.mp hch |>.1 a ha
          rw [Bool.eq_false_iff]
          intro ha2
          exact hR ⟨hsp, ha2⟩
        rw [htail, hc]
    · rw [if_neg hsp]
      rw [ih false (fun x hx => hall x (List.mem_cons_of_mem c hx))
        (List.Chain'.tail hch) (fun hb => by cases hb)]

theorem head?_dropWhile_not (p : Char → Bool) :
    ∀ (l : List Char) (a : Char), (l.dropWhile p).head? = some a → p a = false := by
  intro l
  induction l with
  | nil => intro a ha; cases ha
  | cons c t ih =>
    intro a ha
    rw [List.dropWhile_cons] at ha
    by_cases hp : p c = true
    · rw [if_pos hp] at ha
      exact ih a ha
    · rw [if_neg hp] at ha
      rw [← Option.some_inj.mp ha]
      exact Bool.not_eq_true _ ▸ hp

theorem pyStrip_ends (m : List Char) :
    (∀ a, (pyStrip m).head? = some a → isPySpace a = false) ∧
    (∀ a, (pyStrip m).getLast? = some a → isPySpace a = false) := by
  constructor
  · intro a ha
    have hpre : pyStrip m <+: m.dropWhile isPySpace := by
      unfold pyStrip
      rw [← List.reverse_suffix]
      simp only [List.reverse_reverse]
      exact List.dropWhile_suffix isPySpace
    obtain ⟨t, ht⟩ := hpre
    cases hs : pyStrip m with
    | nil => rw [hs] at ha; cases ha
    | cons x xs =>
      rw [hs] at ha ht
      rw [List.head?_cons, Option.some_inj] at ha
      refine head?_dropWhile_not isPySpace m a ?_
      rw [← ht]
      simp [ha]
  · intro a ha
    unfold pyStrip at ha
    rw [← List.head?_reverse, List.reverse_reverse] at ha
    exact head?_dropWhile_not isPySpace _ a ha

theorem pyStrip_chain {l : List Char} (h : List.Chain' noWsPair l) :
    List.Chain' noWsPair (pyStrip l) := by
  have hsym : ∀ a b : Char, noWsPair a b → noWsPair b a := by
    rintro a b hab ⟨h1, h2⟩
    exact hab ⟨h2, h1⟩
  unfold pyStrip
  have h1 : List.Chain' noWsPair (l.dropWhile isPySpace) :=
    h.suffix (List.dropWhile_suffix isPySpace)
  have h2 : List.Chain' noWsPair (l.dropWhile isPySpace).reverse :=
    List.chain'_reverse.mpr (h1.imp (fun a b hab => hsym a b hab))
  have h3 : List.Chain' noWsPair ((l.dropWhile isPySpace).reverse.dropWhile isPySpace) :=
    h2.suffix (List.dropWhile_suffix isPySpace)
  exact List.chain'_reverse.mpr (h3.imp (fun a b hab => hsym a b hab))

theorem map_eq_self_of_forall {α : Type} (l : List α) (f : α → α)
    (h : ∀ a ∈ l, f a = a) : l.map f = l := by
  conv_rhs => rw [← List.map_id l]
  exact List.map_congr_left h

theorem flatMap_eq_self_of_forall {α : Type} (l : List α) (f : α → List α)
    (h : ∀ a ∈ l, f a = [a]) : l.flatMap f = l := by
  induction l with
  | nil => rfl
  | cons a t ih =>
    rw [List.flatMap_cons, h a (List.mem_cons_self a t),
      ih (fun x hx => h x (List.mem_cons_of_mem a hx))]
    rfl

theorem normalizeChars_idempotent (l : List Char) :
    normalizeChars (normalizeChars l) = normalizeChars l := by
  have hkeep := normalizeChars_keep l
  have hnz : normalizeChars l =
      pyStrip (collapseWs (((((pyStrip l).map pyUpper).flatMap nfdChar).filter
        (fun c => ¬ isMn c)).map keepChar)) := rfl
  have hends : (∀ a, (normalizeChars l).head? = some a → isPySpace a = false) ∧
      (∀ a, (normalizeChars l).getLast? = some a → isPySpace a = false) := by
    rw [hnz]
    exact pyStrip_ends _
  have hchain : List.Chain' noWsPair (normalizeChars l) := by
    rw [hnz]
    exact pyStrip_chain (collapseWsAux_chain _ false).1
  have h1 : pyStrip (normalizeChars l) = normalizeChars l :=
    pyStrip_eq_self _ hends.1 hends.2
  have h2 : (normalizeChars l).map pyUpper = normalizeChars l :=
    map_eq_self_of_forall _ _ (fun c hc => pyUpper_keep (hkeep c hc))
  have h3 : (normalizeChars l).flatMap nfdChar = normalizeChars l :=
    flatMap_eq_self_of_forall _ _ (fun c hc => nfdChar_keep (hkeep c hc))
  have h4 : (normalizeChars l).filter (fun c => ¬ isMn c) = normalizeChars l :=
    List.filter_eq_self.mpr (fun c hc => by
      rw [isMn_keep (hkeep c hc)]
      decide)
  have h5 : (normalizeChars l).map keepChar = normalizeChars l :=
    map_eq_self_of_forall _ _ (fun c hc => keepChar_keep (hkeep c hc))
  have h6 : collapseWs (normalizeChars l) = normalizeChars l := by
    unfold collapseWs
    exact collapseWsAux_fixed _ false
      (fun c hc hsp => keep_respace_char (hkeep c hc) hsp)
      hchain (fun hb => by cases hb)
  show pyStrip (collapseWs (((((pyStrip (normalizeChars l)).map pyUpper).flatMap
      nfdChar).filter (fun c => ¬ isMn c)).map keepChar)) = normalizeChars l
  rw [h1, h2, h3, h4, h5, h6, h1]

/-- C6: the text normalizer is total, maps a null scalar to the empty
string, and is idempotent: normalizing an already-normalized value changes
nothing. -/
theorem normalize_null_and_idempotent :
    normalizeScalar none = "" ∧
    (∀ x : Option String, normalizeScalar (some (normalizeScalar x)) = normalizeScalar x) ∧
    (∀ s : String, normalizeText (normalizeText s) = normalizeText s) := by
  have hidem : ∀ s : String, normalizeText (normalizeText s) = normalizeText s := by
    intro s
    show (⟨normalizeChars (normalizeChars s.data)⟩ : String) = ⟨normalizeChars s.data⟩
    exact congrArg String.mk (normalizeChars_idempotent s.data)
  refine ⟨rfl, fun x => ?_, hidem⟩
  cases x with
  | none =>
    show normalizeText "" = ""
    rfl
  | some s => exact hidem s
